import Mathlib

/-!
Verification development for the WebArchive page-capture pipeline
(`backend/internal/processor/processor.go` and `backend/internal/storage/minio.go`).

The Go code is shallowly embedded as executable Lean functions:
  * strings are `List Char` (`Str`); Go byte strings are modelled at the
    character level (the inputs of interest are ASCII),
  * the network and the object store are oracles packaged in `Env`
    (`net : Str → Option Response` models `http.Client.Do`, with `none` for a
    transport error; `storeOK` models whether `MinioStore.PutBytes` succeeds),
  * mutable state (the per-call dedup cache, the minio put log, and the log of
    HTTP fetch attempts) is threaded explicitly through `PState`,
  * the mutual recursion `downloadAndStore` ↔ `rewriteCSS` is bounded by an
    explicit `fuel : Nat`; the distinguished result `DSResult.fuelOut` marks
    executions in which the Go original has not returned within that recursion
    depth (so `∀ fuel, result = fuelOut` shows the Go code never returns),
  * the standard-library pieces the processor calls (`net/url`, `path.Ext`,
    `path.Join`, `mime`, `crypto/sha1`, whitespace trimming) are modelled
    faithfully for the ASCII, escape-free inputs the pipeline handles.
-/

set_option maxRecDepth 1000000

abbrev Str := List Char

/-- Single-quote character, kept out of literals. -/
def squote : Char := Char.ofNat 39

/-- Double-quote character. -/
def dquote : Char := Char.ofNat 34

/-- ASCII whitespace, modelling `unicode.IsSpace` on ASCII input. -/
def isSpaceChar (c : Char) : Bool :=
  c.toNat = 32 ∨ c.toNat = 9 ∨ c.toNat = 10 ∨ c.toNat = 13 ∨ c.toNat = 11 ∨ c.toNat = 12

def isAlphaChar (c : Char) : Bool :=
  (65 ≤ c.toNat ∧ c.toNat ≤ 90) ∨ (97 ≤ c.toNat ∧ c.toNat ≤ 122)

def isDigitChar (c : Char) : Bool :=
  48 ≤ c.toNat ∧ c.toNat ≤ 57

/-- ASCII lower-casing of one character, modelling `strings.ToLower`. -/
def toLowerChar (c : Char) : Char :=
  if 65 ≤ c.toNat ∧ c.toNat ≤ 90 then Char.ofNat (c.toNat + 32) else c

def toLowerStr (s : Str) : Str := s.map toLowerChar

/-- Go `strings.TrimSpace` (ASCII model). -/
def trimSpace (s : Str) : Str :=
  ((s.dropWhile isSpaceChar).reverse.dropWhile isSpaceChar).reverse

def isQuoteChar (c : Char) : Bool := c = dquote ∨ c = squote

/-- Go strings.Trim with a cutset of the two quote characters: strip any
leading or trailing single or double quotes. -/
def trimQuotes (s : Str) : Str :=
  ((s.dropWhile isQuoteChar).reverse.dropWhile isQuoteChar).reverse

/-- Go `strings.Contains`. -/
def containsSub (s sub : Str) : Bool :=
  match s with
  | [] => sub.isEmpty
  | _ :: rest => sub.isPrefixOf s || containsSub rest sub

/-- Go `strings.Fields`: split around runs of whitespace, no empty fields. -/
def fieldsAux : Str → Str → List Str
  | [], cur => if cur = [] then [] else [cur.reverse]
  | c :: rest, cur =>
    if isSpaceChar c then
      if cur = [] then fieldsAux rest [] else cur.reverse :: fieldsAux rest []
    else fieldsAux rest (c :: cur)

def fieldsOf (s : Str) : List Str := fieldsAux s []

/-- Cut at the first occurrence of `sep`; the separator is dropped.
If `sep` does not occur the whole input is the first component. -/
def cutAt (sep : Char) : Str → (Str × Str)
  | [] => ([], [])
  | c :: rest =>
    if c = sep then ([], rest)
    else
      let (a, b) := cutAt sep rest
      (c :: a, b)

/-! ## SHA-1 (`crypto/sha1`), FIPS 180 over `Nat` with explicit mod 2^32 -/

def m32 : Nat := 4294967296

def rotl32 (n x : Nat) : Nat :=
  ((x <<< n) ||| (x >>> (32 - n))) % m32

def sha1K (t : Nat) : Nat :=
  if t < 20 then 1518500249
  else if t < 40 then 1859775393
  else if t < 60 then 2400959708
  else 3395469782

def sha1F (t b c d : Nat) : Nat :=
  if t < 20 then (b &&& c) ||| ((b ^^^ 4294967295) &&& d)
  else if t < 40 then b ^^^ c ^^^ d
  else if t < 60 then (b &&& c) ||| (b &&& d) ||| (c &&& d)
  else b ^^^ c ^^^ d

def sha1Pad (msg : List Nat) : List Nat :=
  let len := msg.length
  let bitLen := 8 * len
  let zeros := (64 - ((len + 9) % 64)) % 64
  msg ++ [128] ++ List.replicate zeros 0 ++
    [(bitLen >>> 56) % 256, (bitLen >>> 48) % 256, (bitLen >>> 40) % 256,
     (bitLen >>> 32) % 256, (bitLen >>> 24) % 256, (bitLen >>> 16) % 256,
     (bitLen >>> 8) % 256, bitLen % 256]

def bytesToWords : List Nat → List Nat
  | b0 :: b1 :: b2 :: b3 :: rest => (((b0 * 256 + b1) * 256 + b2) * 256 + b3) :: bytesToWords rest
  | _ => []

def expandLoop : Nat → List Nat → List Nat
  | 0, acc => acc
  | n + 1, acc =>
    let l := acc.length
    let w := rotl32 1 ((acc.getD (l - 3) 0) ^^^ (acc.getD (l - 8) 0) ^^^
                      (acc.getD (l - 14) 0) ^^^ (acc.getD (l - 16) 0))
    expandLoop n (acc ++ [w])

def sha1Rounds : List Nat → Nat → (Nat × Nat × Nat × Nat × Nat) → (Nat × Nat × Nat × Nat × Nat)
  | [], _, s => s
  | w :: ws, t, (a, b, c, d, e) =>
    let tmp := (rotl32 5 a + sha1F t b c d + e + sha1K t + w) % m32
    sha1Rounds ws (t + 1) (tmp, a, rotl32 30 b, c, d)

def sha1Chunks : Nat → List Nat → (Nat × Nat × Nat × Nat × Nat) → (Nat × Nat × Nat × Nat × Nat)
  | 0, _, s => s
  | n + 1, bytes, (h0, h1, h2, h3, h4) =>
    let block := bytes.take 64
    let ws := expandLoop 64 (bytesToWords block)
    let (a, b, c, d, e) := sha1Rounds ws 0 (h0, h1, h2, h3, h4)
    sha1Chunks n (bytes.drop 64)
      ((h0 + a) % m32, (h1 + b) % m32, (h2 + c) % m32, (h3 + d) % m32, (h4 + e) % m32)

def hexDigit (n : Nat) : Char :=
  if n < 10 then Char.ofNat (48 + n) else Char.ofNat (87 + n)

def word8Hex (w : Nat) : Str :=
  [hexDigit ((w >>> 28) % 16), hexDigit ((w >>> 24) % 16), hexDigit ((w >>> 20) % 16),
   hexDigit ((w >>> 16) % 16), hexDigit ((w >>> 12) % 16), hexDigit ((w >>> 8) % 16),
   hexDigit ((w >>> 4) % 16), hexDigit (w % 16)]

/-- Go `hex.EncodeToString(sha1.Sum([]byte(s))[:])` — lower-case hex SHA-1. -/
def sha1hex (s : Str) : Str :=
  let padded := sha1Pad (s.map Char.toNat)
  let (h0, h1, h2, h3, h4) :=
    sha1Chunks (padded.length / 64) padded
      (1732584193, 4023233417, 2562383102, 271733878, 3285377520)
  word8Hex h0 ++ word8Hex h1 ++ word8Hex h2 ++ word8Hex h3 ++ word8Hex h4

/-! ## `net/url` model

Modelled from Go `net/url` (`Parse`, `ResolveReference`, `URL.String`) for the
escape-free ASCII URLs the processor handles: percent-escaping, userinfo
validation, port validation and `ForceQuery` are not modelled. -/

structure GoURL where
  scheme : Str
  opq : Str
  host : Str
  path : Str
  query : Str
  frag : Str
deriving DecidableEq

inductive SchemeRes where
  | bad
  | noScheme
  | found (scheme rest : Str)
deriving DecidableEq

/-- Go `getScheme`: a scheme is `[a-zA-Z][a-zA-Z0-9+-.]*` followed by `:`;
a leading `:` is a parse error; any other shape means "no scheme". -/
def getSchemeAux : Str → Str → SchemeRes
  | [], _ => .noScheme
  | c :: rest, acc =>
    if isAlphaChar c then getSchemeAux rest (c :: acc)
    else if isDigitChar c ∨ c = '+' ∨ c = '-' ∨ c = '.' then
      if acc = [] then .noScheme else getSchemeAux rest (c :: acc)
    else if c = ':' then
      if acc = [] then .bad else .found acc.reverse rest
    else .noScheme

def getScheme (s : Str) : SchemeRes := getSchemeAux s []

def hostOfAuthority (a : Str) : Str :=
  if a.contains '@' then (a.reverse.takeWhile (· ≠ '@')).reverse else a

/-- Go `url.Parse` (without escape handling): split fragment, scheme and query;
an absolute URL whose remainder does not start with `/` is opaque; a relative
reference whose first path segment contains `:` is a parse error; `//` starts
an authority. -/
def urlParse (raw : Str) : Option GoURL :=
  let (noFrag, frag) := cutAt '#' raw
  match getScheme noFrag with
  | .bad => none
  | sr =>
    let scheme := match sr with | .found sc _ => toLowerStr sc | _ => []
    let rest0 := match sr with | .found _ r => r | _ => noFrag
    let (rest1, query) := cutAt '?' rest0
    if ¬ (("/".toList).isPrefixOf rest1) then
      if scheme ≠ [] then some ⟨scheme, rest1, [], [], query, frag⟩
      else if containsSub (rest1.takeWhile (· ≠ '/')) (":".toList) then none
      else some ⟨scheme, [], [], rest1, query, frag⟩
    else
      if ("//".toList).isPrefixOf rest1 ∧ (scheme ≠ [] ∨ ¬ (("///".toList).isPrefixOf rest1)) then
        let after := rest1.drop 2
        some ⟨scheme, [], hostOfAuthority (after.takeWhile (· ≠ '/')),
              after.dropWhile (· ≠ '/'), query, frag⟩
      else some ⟨scheme, [], [], rest1, query, frag⟩

/-- Everything up to and including the last `/` (Go `base[:strings.LastIndex(base, "/")+1]`). -/
def uptoLastSlash (s : Str) : Str := (s.reverse.dropWhile (· ≠ '/')).reverse

/-- RFC 3986 remove-dot-segments over already-split segments, with a stack. -/
def cleanSegs : List Str → List Str → List Str
  | [], acc => acc.reverse
  | s :: rest, acc =>
    if s = ".".toList then cleanSegs rest acc
    else if s = "..".toList then cleanSegs rest acc.tail
    else cleanSegs rest (s :: acc)

/-- Go `net/url.resolvePath`: merge `ref` onto `base` and remove dot segments;
the result is empty or starts with `/`. -/
def resolvePath (base ref : Str) : Str :=
  let full := if ref = [] then base
              else if ref.head? = some '/' then ref
              else uptoLastSlash base ++ ref
  if full = [] then []
  else
    let segs := match List.splitOn '/' full with
      | [] :: rest => rest
      | s => s
    let cleaned := cleanSegs segs []
    let cleaned :=
      if (segs.getLast? = some (".".toList) ∨ segs.getLast? = some ("..".toList)) ∧ cleaned ≠ []
      then cleaned ++ [[]] else cleaned
    '/' :: List.intercalate ("/".toList) cleaned

/-- Go `URL.ResolveReference` (userinfo and `ForceQuery` omitted). -/
def resolveReference (u ref : GoURL) : GoURL :=
  let scheme := if ref.scheme = [] then u.scheme else ref.scheme
  if ref.scheme ≠ [] ∨ ref.host ≠ [] then
    { ref with scheme := scheme, path := resolvePath ref.path [] }
  else if ref.opq ≠ [] then
    { ref with scheme := scheme, host := [], path := [] }
  else
    let query := if ref.path = [] ∧ ref.query = [] then u.query else ref.query
    let frag := if ref.path = [] ∧ ref.query = [] ∧ ref.frag = [] then u.frag else ref.frag
    if ref.path = [] ∧ u.opq ≠ [] then
      ⟨scheme, u.opq, [], [], query, frag⟩
    else
      ⟨scheme, [], u.host, resolvePath u.path ref.path, query, frag⟩

/-- Go `URL.String` (userinfo, escaping and `OmitHost` omitted). -/
def urlToString (u : GoURL) : Str :=
  (if u.scheme ≠ [] then u.scheme ++ [':'] else [])
  ++ (if u.opq ≠ [] then u.opq
      else
        (if u.scheme ≠ [] ∨ u.host ≠ [] then
          (if u.host ≠ [] ∨ u.path ≠ [] then "//".toList ++ u.host else u.host)
         else [])
        ++ (if u.path ≠ [] ∧ u.path.head? ≠ some '/' ∧ u.host ≠ [] then ['/'] else [])
        ++ u.path)
  ++ (if u.query ≠ [] then '?' :: u.query else [])
  ++ (if u.frag ≠ [] then '#' :: u.frag else [])

/-! ## Content types and paths (`mime`, `path`, `storage/minio.go`) -/

def lookupStr : List (Str × Str) → Str → Option Str
  | [], _ => none
  | (k, v) :: rest, key => if k = key then some v else lookupStr rest key

/-- Go `mimeExtMap` from `processor.go` (first extension of each list). -/
def mimeExtMap : List (Str × Str) :=
  [("image/jpeg".toList, ".jpg".toList), ("image/png".toList, ".png".toList),
   ("image/gif".toList, ".gif".toList), ("image/webp".toList, ".webp".toList),
   ("image/svg+xml".toList, ".svg".toList), ("text/css".toList, ".css".toList),
   ("application/javascript".toList, ".js".toList), ("text/javascript".toList, ".js".toList)]

/-- Go `mimeExtensionsMap` — lower-cased lookup. -/
def mimeExtensionsMap (ct : Str) : Option Str := lookupStr mimeExtMap (toLowerStr ct)

/-- Go `mimeExtensions` — truncate at `;` then look up. -/
def mimeExtensions (ct : Str) : Option Str := mimeExtensionsMap (cutAt ';' ct).1

/-- Go `mime.TypeByExtension` builtin table (the subset relevant here;
system mime files are not modelled). -/
def builtinMimeTypes : List (Str × Str) :=
  [(".avif".toList, "image/avif".toList),
   (".css".toList, "text/css; charset=utf-8".toList),
   (".csv".toList, "text/csv; charset=utf-8".toList),
   (".gif".toList, "image/gif".toList),
   (".htm".toList, "text/html; charset=utf-8".toList),
   (".html".toList, "text/html; charset=utf-8".toList),
   (".jpeg".toList, "image/jpeg".toList),
   (".jpg".toList, "image/jpeg".toList),
   (".js".toList, "text/javascript; charset=utf-8".toList),
   (".json".toList, "application/json".toList),
   (".mjs".toList, "text/javascript; charset=utf-8".toList),
   (".pdf".toList, "application/pdf".toList),
   (".png".toList, "image/png".toList),
   (".svg".toList, "image/svg+xml".toList),
   (".wasm".toList, "application/wasm".toList),
   (".webp".toList, "image/webp".toList),
   (".xml".toList, "text/xml; charset=utf-8".toList)]

def mimeTypeByExtension (ext : Str) : Str :=
  (lookupStr builtinMimeTypes (toLowerStr ext)).getD []

def pathExtRev : Str → Str → Str
  | [], _ => []
  | c :: rest, acc =>
    if c = '/' then []
    else if c = '.' then '.' :: acc
    else pathExtRev rest (c :: acc)

/-- Go `path.Ext`: suffix from the final dot of the final slash-separated element. -/
def pathExt (p : Str) : Str := pathExtRev p.reverse []

/-- Go `storage.GuessContentType` from `minio.go`. -/
def guessContentType (filename fallback : Str) : Str :=
  let ext := pathExt filename
  if ext ≠ [] ∧ mimeTypeByExtension ext ≠ [] then mimeTypeByExtension ext
  else if trimSpace fallback ≠ [] then fallback
  else "application/octet-stream".toList

/-- Go `storage.ArchivePrefix`: `fmt.Sprintf("archives/%s", archiveID)`. -/
def archivePrefixOf (archiveID : Str) : Str := "archives/".toList ++ archiveID

/-- Go `path.Join` for the clean, dot-free components used here
(`path.Clean` is the identity on them). -/
def goPathJoin (parts : List Str) : Str :=
  List.intercalate ("/".toList) (parts.filter (· ≠ []))

/-! ## Pipeline state, environment and `downloadAndStore` -/

/-- One HTTP response: status code, `Content-Type` header, body bytes. -/
structure Response where
  status : Nat
  contentType : Str
  body : Str
deriving DecidableEq

/-- Effect oracles of the pipeline: `net` models `http.Client.Do`
(`none` = transport error), `storeOK` models whether
`MinioStore.PutBytes` succeeds for a given object path. -/
structure Env where
  net : Str → Option Response
  storeOK : Str → Bool

/-- Go `processor.Asset`. -/
structure Asset where
  original : Str
  stored : Str
  type : Str
deriving DecidableEq

/-- Go `processor.assetInfo` (the dedup-cache value). -/
structure AssetInfo where
  stored : Str
  contentType : Str
deriving DecidableEq

/-- The mutable state of one `Process` call: the dedup cache
(`map[string]assetInfo`, as an association list whose most recent binding
wins), the log of `PutBytes` calls and the log of attempted HTTP fetches
(`Client.Do` calls), both in execution order. -/
structure PState where
  cache : List (Str × AssetInfo)
  puts : List (Str × Str × Str)
  fetches : List Str
deriving DecidableEq

def pstate0 : PState := ⟨[], [], []⟩

def cacheFind : List (Str × AssetInfo) → Str → Option AssetInfo
  | [], _ => none
  | (k, v) :: rest, key => if k = key then some v else cacheFind rest key

/-- Result of `downloadAndStore`: `ok` carries the stored path, content type
and the extra assets discovered by a nested CSS rewrite; `fail` is any Go
error return; `fuelOut` marks an execution on which the Go original has not
returned within the given recursion depth. -/
inductive DSResult where
  | ok (storedPath contentType : Str) (extra : List Asset)
  | fail
  | fuelOut
deriving DecidableEq

abbrev Handler := Str → PState → DSResult × PState

/-- Go `io.LimitReader(resp.Body, 20<<20)` byte cap. -/
def capBytes : Nat := 20 <<< 20

/-- The extension chosen by `downloadAndStore`: `path.Ext` of the parsed URL
path, else the first `mimeExtensions` extension of the `Content-Type` header,
else `.bin`. -/
def dsExt (rawURL : Str) (resp : Response) : Str :=
  let ext0 := match urlParse rawURL with
    | some pu => pathExt pu.path
    | none => []
  let ext1 :=
    if ext0 = [] then
      (if resp.contentType ≠ [] then (mimeExtensions resp.contentType).getD [] else [])
    else ext0
  if ext1 = [] then ".bin".toList else ext1

/-- Go `hex.EncodeToString(sha1.Sum([]byte(rawURL))[:]) + ext`. -/
def dsName (rawURL : Str) (resp : Response) : Str := sha1hex rawURL ++ dsExt rawURL resp

/-- Go `path.Join("assets", name)`. -/
def dsStoredPath (rawURL : Str) (resp : Response) : Str :=
  goPathJoin ["assets".toList, dsName rawURL resp]

/-- Go `path.Join(storage.ArchivePrefix(archiveID), "assets", name)`. -/
def dsObjectPath (aid rawURL : Str) (resp : Response) : Str :=
  goPathJoin [archivePrefixOf aid, "assets".toList, dsName rawURL resp]

/-- Go `storage.GuessContentType(name, resp.Header.Get("Content-Type"))`. -/
def dsContentType (rawURL : Str) (resp : Response) : Str :=
  guessContentType (dsName rawURL resp) resp.contentType

/-- Go `strings.Contains(contentType, "text/css") || strings.EqualFold(ext, ".css")`. -/
def dsIsCSS (rawURL : Str) (resp : Response) : Bool :=
  containsSub (dsContentType rawURL resp) ("text/css".toList) ∨
    toLowerStr (dsExt rawURL resp) = ".css".toList

/-! ## CSS scanning (`regexp` patterns of `rewriteCSS`)

`reURL` matches a literal `url(` followed by a non-empty capture of
non-`)` characters and a closing `)`.  `reImport` matches a literal
`@import`, mandatory whitespace, an optional literal `url(`, optional
whitespace, an optional single or double quote, a non-empty capture of
characters that are not quotes, `)` or whitespace, then an optional quote,
optional whitespace and an optional `)`.
`ReplaceAllStringFunc` is modelled by tokenizing the text into literal
characters and leftmost non-overlapping matches (each carrying its capture
and its full matched text), then folding the replacement over the tokens. -/

inductive CTok where
  | lit (c : Char)
  | ref (cap : Str) (orig : Str)
deriving DecidableEq

/-- A match of `url\(([^)]+)\)` starting at the head of `s`:
the capture is everything up to the first `)`, and must be non-empty. -/
def matchUrlAt (s : Str) : Option (Str × Str) :=
  if ("url(".toList).isPrefixOf s then
    let inner := s.drop 4
    let cap := inner.takeWhile (· ≠ ')')
    if cap ≠ [] ∧ inner.dropWhile (· ≠ ')') ≠ [] then
      some (cap, "url(".toList ++ cap ++ [')'])
    else none
  else none

/-- A character admissible in the `reImport` capture group: not a quote,
not `)`, not whitespace. -/
def capChar (c : Char) : Bool :=
  ¬ (c = squote ∨ c = dquote ∨ c = ')' ∨ isSpaceChar c)

/-- The optional-quote-and-capture tail of `reImport`, matched greedily;
returns the capture and the exact consumed text. -/
def importTail (r1 : Str) : Option (Str × Str) :=
  let ws := r1.takeWhile isSpaceChar
  let r2 := r1.dropWhile isSpaceChar
  let q : Str := match r2 with
    | c :: _ => if c = squote ∨ c = dquote then [c] else []
    | [] => []
  let r3 := r2.drop q.length
  let cap := r3.takeWhile capChar
  if cap = [] then none
  else
    let r4 := r3.drop cap.length
    let q2 : Str := match r4 with
      | c :: _ => if c = squote ∨ c = dquote then [c] else []
      | [] => []
    let r5 := r4.drop q2.length
    let ws2 := r5.takeWhile isSpaceChar
    let r6 := r5.dropWhile isSpaceChar
    let pr : Str := match r6 with
      | c :: _ => if c = ')' then [c] else []
      | [] => []
    some (cap, ws ++ q ++ cap ++ q2 ++ ws2 ++ pr)

/-- A match of `reImport` starting at the head of `s`; if the `url(` branch
fails on an empty capture the regex engine backtracks to the no-`url(` branch. -/
def matchImportAt (s : Str) : Option (Str × Str) :=
  if ("@import".toList).isPrefixOf s then
    let r0 := s.drop 7
    let ws1 := r0.takeWhile isSpaceChar
    if ws1 = [] then none
    else
      let r1 := r0.dropWhile isSpaceChar
      if ("url(".toList).isPrefixOf r1 then
        match importTail (r1.drop 4) with
        | some (cap, consumed) =>
          some (cap, "@import".toList ++ ws1 ++ "url(".toList ++ consumed)
        | none =>
          match importTail r1 with
          | some (cap, consumed) => some (cap, "@import".toList ++ ws1 ++ consumed)
          | none => none
      else
        match importTail r1 with
        | some (cap, consumed) => some (cap, "@import".toList ++ ws1 ++ consumed)
        | none => none
  else none

/-- Tokenize with matcher `m`, scanning left to right; after a match the
remaining `matched.length - 1` characters of the match are skipped. -/
def toksAux (m : Str → Option (Str × Str)) : Str → Nat → List CTok
  | [], _ => []
  | _ :: rest, k + 1 => toksAux m rest k
  | c :: rest, 0 =>
    match m (c :: rest) with
    | some (cap, matched) => .ref cap matched :: toksAux m rest (matched.length - 1)
    | none => .lit c :: toksAux m rest 0

def urlToks (s : Str) : List CTok := toksAux matchUrlAt s 0

def importToks (s : Str) : List CTok := toksAux matchImportAt s 0

/-- Result of the `replaceFn` closure in `rewriteCSS`. -/
inductive CssRep where
  | skip
  | done (apiPath : Str) (main : Asset) (extra : List Asset)
  | fuelOut
deriving DecidableEq

/-- Go `fmt.Sprintf("/api/assets/%s/%s", archiveID, storedPath)`. -/
def apiPathOf (aid sp : Str) : Str := "/api/assets/".toList ++ aid ++ "/".toList ++ sp

/-- Go `replaceFn` from `rewriteCSS`: trim space and quotes, filter
`data:`/`javascript:`/non-http(s), resolve against the stylesheet URL, then
fetch-and-store through the shared handler. -/
def cssReplaceFn (handle : Handler) (aid : Str) (base : GoURL) (raw0 : Str) (st : PState) :
    CssRep × PState :=
  let raw := trimQuotes (trimSpace raw0)
  if raw = [] ∨ ("data:".toList).isPrefixOf raw ∨ ("javascript:".toList).isPrefixOf raw then
    (.skip, st)
  else
    match urlParse raw with
    | none => (.skip, st)
    | some u0 =>
      let u := resolveReference base u0
      if ¬ (u.scheme = "http".toList ∨ u.scheme = "https".toList) then (.skip, st)
      else
        match handle (urlToString u) st with
        | (.ok sp ct extra, st') => (.done (apiPathOf aid sp) ⟨urlToString u, sp, ct⟩ extra, st')
        | (.fail, st') => (.skip, st')
        | (.fuelOut, st') => (.fuelOut, st')

def urlRender (ap : Str) : Str := "url(".toList ++ [dquote] ++ ap ++ [dquote, ')']

def importRender (ap : Str) : Str := "@import url(".toList ++ [dquote] ++ ap ++ [dquote, ')']

/-- Go `ReplaceAllStringFunc` over the token stream: a skipped match keeps its
original text, a successful one is replaced by `render apiPath`; assets are
accumulated in match order and `none` marks a run on which the Go original
diverges inside a callback. -/
def runToks (render : Str → Str) (handle : Handler) (aid : Str) (base : GoURL) :
    List CTok → PState → (Option (Str × List Asset)) × PState
  | [], st => (some ([], []), st)
  | .lit c :: ts, st =>
    match runToks render handle aid base ts st with
    | (none, st') => (none, st')
    | (some (t, as), st') => (some (c :: t, as), st')
  | .ref cap orig :: ts, st =>
    match cssReplaceFn handle aid base cap st with
    | (.fuelOut, st') => (none, st')
    | (.skip, st') =>
      match runToks render handle aid base ts st' with
      | (none, st'') => (none, st'')
      | (some (t, as), st'') => (some (orig ++ t, as), st'')
    | (.done ap main extra, st') =>
      match runToks render handle aid base ts st' with
      | (none, st'') => (none, st'')
      | (some (t, as), st'') => (some (render ap ++ t, (main :: extra) ++ as), st'')

inductive CSSResult where
  | ok (css : Str) (assets : List Asset)
  | err
  | fuelOut
deriving DecidableEq

/-- Go `rewriteCSS` with an explicit fetch handler: the `url(...)` pass runs
first, then the `@import` pass runs over the already-rewritten text, exactly
as the two `ReplaceAllStringFunc` calls do. -/
def rewriteCSSWith (handle : Handler) (aid cssURL css : Str) (st : PState) : CSSResult × PState :=
  match urlParse cssURL with
  | none => (.err, st)
  | some base =>
    match runToks urlRender handle aid base (urlToks css) st with
    | (none, st') => (.fuelOut, st')
    | (some (t1, a1), st') =>
      match runToks importRender handle aid base (importToks t1) st' with
      | (none, st'') => (.fuelOut, st'')
      | (some (t2, a2), st'') => (.ok t2 (a1 ++ a2), st'')

/-- The tail of `downloadAndStore` after a successful fetch and CSS rewrite:
`PutBytes`, then the cache insert, then the return. A put failure is an error
return that leaves the cache untouched. -/
def finishStore (env : Env) (aid rawURL : Str) (resp : Response) (body : Str)
    (extras : List Asset) (st : PState) : DSResult × PState :=
  if env.storeOK (dsObjectPath aid rawURL resp) then
    (.ok (dsStoredPath rawURL resp) (dsContentType rawURL resp) extras,
     { st with
        cache := (rawURL, ⟨dsStoredPath rawURL resp, dsContentType rawURL resp⟩) :: st.cache,
        puts := st.puts ++ [(dsObjectPath aid rawURL resp, body, dsContentType rawURL resp)] })
  else (.fail, st)

/-- Go `downloadAndStore`, with `fuel` bounding the depth of the
`downloadAndStore` → `rewriteCSS` → `downloadAndStore` recursion (the Go
original has no such bound).  Note, exactly as in the source: the cache is
consulted before the fetch but only *written* after the CSS rewrite has
completed, the fetch is logged before the status check, and the body is
read through the 20 MiB cap of `io.LimitReader`. -/
def downloadAndStore : Nat → Env → Str → Str → PState → DSResult × PState
  | 0, _, _, _, st => (.fuelOut, st)
  | fuel + 1, env, aid, rawURL, st =>
    match cacheFind st.cache rawURL with
    | some info => (.ok info.stored info.contentType [], st)
    | none =>
      let st1 : PState := { st with fetches := st.fetches ++ [rawURL] }
      match env.net rawURL with
      | none => (.fail, st1)
      | some resp =>
        if resp.status < 200 ∨ 300 ≤ resp.status then (.fail, st1)
        else
          let body := resp.body.take capBytes
          if dsIsCSS rawURL resp then
            match rewriteCSSWith (downloadAndStore fuel env aid) aid rawURL body st1 with
            | (.fuelOut, st2) => (.fuelOut, st2)
            | (.err, st2) => finishStore env aid rawURL resp body [] st2
            | (.ok rewritten extras, st2) => finishStore env aid rawURL resp rewritten extras st2
          else finishStore env aid rawURL resp body [] st1

/-- Go `rewriteCSS` as called by `downloadAndStore` (nested fetches run at the
given fuel). -/
def rewriteCSS (fuel : Nat) (env : Env) (aid cssURL css : Str) (st : PState) :
    CSSResult × PState :=
  rewriteCSSWith (downloadAndStore fuel env aid) aid cssURL css st

/-! ## `handleURL`, `handleSrcset` and the DOM walk -/

/-- Go `if base != nil { u = base.ResolveReference(u) }`. -/
def baseResolve (base : Option GoURL) (u0 : GoURL) : GoURL :=
  match base with
  | some b => resolveReference b u0
  | none => u0

/-- Go `handleURL`.  The first component of the result is the `updated` string
(the trimmed original on any skip or failure), the second the discovered
assets.  A `fuelOut` of the underlying `downloadAndStore` is folded into the
failure branch: such executions never return in Go, and the claims touching
them are settled at `downloadAndStore` level. -/
def handleURL (fuel : Nat) (env : Env) (aid : Str) (base : Option GoURL) (raw0 : Str)
    (st : PState) : (Str × List Asset) × PState :=
  let raw := trimSpace raw0
  if raw = [] ∨ ("data:".toList).isPrefixOf raw ∨ ("javascript:".toList).isPrefixOf raw then
    ((raw, []), st)
  else
    match urlParse raw with
    | none => ((raw, []), st)
    | some u0 =>
      let u := baseResolve base u0
      if ¬ (u.scheme = "http".toList ∨ u.scheme = "https".toList) then ((raw, []), st)
      else
        match downloadAndStore fuel env aid (urlToString u) st with
        | (.ok sp ct extra, st') => ((apiPathOf aid sp, ⟨urlToString u, sp, ct⟩ :: extra), st')
        | (.fail, st') => ((raw, []), st')
        | (.fuelOut, st') => ((raw, []), st')

/-- The per-candidate loop of `handleSrcset`. -/
def srcsetLoop (fuel : Nat) (env : Env) (aid : Str) (base : Option GoURL) :
    List Str → PState → ((List Str × List Asset) × PState)
  | [], st => (([], []), st)
  | part0 :: parts, st =>
    let part := trimSpace part0
    if part = [] then srcsetLoop fuel env aid base parts st
    else
      match fieldsOf part with
      | [] => srcsetLoop fuel env aid base parts st
      | urlPart :: descFields =>
        let descriptor :=
          if descFields ≠ [] then " ".toList ++ List.intercalate (" ".toList) descFields else []
        let ((updated0, fA), st1) := handleURL fuel env aid base urlPart st
        let updated := if updated0 = [] then urlPart else updated0
        let ((us, as), st2) := srcsetLoop fuel env aid base parts st1
        (((updated ++ descriptor) :: us, fA ++ as), st2)

/-- Go `handleSrcset`: split on `,`, rewrite each candidate URL, keep its
descriptor, rejoin with `", "`. -/
def handleSrcset (fuel : Nat) (env : Env) (aid : Str) (base : Option GoURL) (raw : Str)
    (st : PState) : (Str × List Asset) × PState :=
  let ((us, as), st') := srcsetLoop fuel env aid base (List.splitOn ',' raw) st
  if us = [] then ((raw, []), st')
  else ((List.intercalate (", ".toList) us, as), st')

/-- An `x/net/html` node in its native first-child / next-sibling shape;
`text` stands for every non-element node kind. -/
inductive HNode where
  | nil
  | text (s : Str) (sib : HNode)
  | elem (tag : Str) (attrs : List (Str × Str)) (child : HNode) (sib : HNode)
deriving DecidableEq

/-- Update the first attribute whose key is `key` (the `for i := range n.Attr
... break` pattern): run `upd` on its value; a non-empty result is written
back, with the key renamed to `src` when `ren` is set (the lazy-attribute
promotion); the discovered assets are appended either way. -/
def updFirstKeyWith (key : Str) (upd : Str → PState → ((Str × List Asset) × PState)) (ren : Bool) :
    List (Str × Str) → PState → ((List (Str × Str) × List Asset) × PState)
  | [], st => (([], []), st)
  | (k, v) :: rest, st =>
    if k = key then
      let ((updated, as), st') := upd v st
      if updated = [] then (((k, v) :: rest, as), st')
      else ((((if ren then "src".toList else k), updated) :: rest, as), st')
    else
      let ((rest', as), st') := updFirstKeyWith key upd ren rest st
      (((k, v) :: rest', as), st')

def lazyKeys : List Str :=
  ["data-src".toList, "data-original".toList, "data-lazy-src".toList, "data-lazy".toList]

/-- The lazy-attribute loop of the walk: the `break` in the source only exits
the inner attribute scan, so every listed key is processed in order. -/
def doLazy (upd : Str → PState → ((Str × List Asset) × PState)) :
    List Str → List (Str × Str) → PState → ((List (Str × Str) × List Asset) × PState)
  | [], attrs, st => ((attrs, []), st)
  | key :: keys, attrs, st =>
    let ((attrs1, a1), st1) := updFirstKeyWith key upd true attrs st
    let ((attrs2, a2), st2) := doLazy upd keys attrs1 st1
    ((attrs2, a1 ++ a2), st2)

/-- Go `attrValue`: the first attribute with the given key, lower-cased and
trimmed. -/
def attrValueOf : List (Str × Str) → Str → Str
  | [], _ => []
  | (k, v) :: rest, key => if k = key then toLowerStr (trimSpace v) else attrValueOf rest key

def srcTags : List Str :=
  ["img".toList, "source".toList, "video".toList, "audio".toList, "script".toList]

/-- The element-handling switch of the walk. -/
def processElem (fuel : Nat) (env : Env) (aid : Str) (base : Option GoURL) (tag : Str)
    (attrs : List (Str × Str)) (st : PState) : ((List (Str × Str) × List Asset) × PState) :=
  let tl := toLowerStr tag
  if tl ∈ srcTags then
    let ((attrs1, a1), st1) := updFirstKeyWith ("src".toList) (handleURL fuel env aid base) false attrs st
    if tl = "img".toList then
      let ((attrs2, a2), st2) := doLazy (handleURL fuel env aid base) lazyKeys attrs1 st1
      let ((attrs3, a3), st3) :=
        updFirstKeyWith ("srcset".toList) (handleSrcset fuel env aid base) false attrs2 st2
      ((attrs3, a1 ++ a2 ++ a3), st3)
    else ((attrs1, a1), st1)
  else if tl = "link".toList then
    let rel := attrValueOf attrs ("rel".toList)
    if containsSub rel ("stylesheet".toList) ∨ containsSub rel ("icon".toList) then
      updFirstKeyWith ("href".toList) (handleURL fuel env aid base) false attrs st
    else ((attrs, []), st)
  else ((attrs, []), st)

/-- The recursive `walk` closure of `Process`: pre-order, a node's own
attributes first, then its children, then its siblings. -/
def walkNode (fuel : Nat) (env : Env) (aid : Str) (base : Option GoURL) :
    HNode → PState → ((HNode × List Asset) × PState)
  | .nil, st => ((.nil, []), st)
  | .text s sib, st =>
    let ((sib', as), st') := walkNode fuel env aid base sib st
    ((.text s sib', as), st')
  | .elem tag attrs child sib, st =>
    let ((attrs', a1), st1) := processElem fuel env aid base tag attrs st
    let ((child', a2), st2) := walkNode fuel env aid base child st1
    let ((sib', a3), st3) := walkNode fuel env aid base sib st2
    ((.elem tag attrs' child' sib', a1 ++ a2 ++ a3), st3)

structure ProcOut where
  doc : HNode
  assets : List Asset
  state : PState

/-- The post-parse body of `Process`: parse the page URL as resolution base,
walk the document from a fresh state. -/
def processDoc (fuel : Nat) (env : Env) (aid purl : Str) (doc : HNode) : ProcOut :=
  let base := urlParse purl
  let ((doc', assets), st) := walkNode fuel env aid base doc pstate0
  ⟨doc', assets, st⟩

/-- Modelled from the spec: `golang.org/x/net/html.Parse` implements WHATWG
HTML5 tree construction with error recovery, and returns an error only when
the underlying reader fails; over an in-memory `bytes.Reader` it is total.
The parser itself is not part of this repository, and only its totality
matters to the claims, so this stand-in wraps the raw text in a document
node; document-level properties are stated directly over the parsed tree via
`processDoc`. -/
def htmlParse (raw : Str) : HNode := .elem ("html".toList) [] (.text raw .nil) .nil

def renderAttrs : List (Str × Str) → Str
  | [] => []
  | (k, v) :: rest => ' ' :: (k ++ ('=' :: dquote :: v ++ [dquote])) ++ renderAttrs rest

/-- Modelled from `golang.org/x/net/html.Render` (simplified: no escaping,
void elements serialized like normal ones); it cannot fail on a
`bytes.Buffer`. -/
def htmlRender : HNode → Str
  | .nil => []
  | .text s sib => s ++ htmlRender sib
  | .elem tag attrs child sib =>
    '<' :: (tag ++ renderAttrs attrs ++ ['>'] ++ htmlRender child
      ++ ('<' :: '/' :: tag ++ ['>'])) ++ htmlRender sib

/-- Go `processor.Result`. -/
structure Result where
  html : Str
  assets : List Asset
deriving DecidableEq

/-- Go `Processor.Process`: `none` models the `(nil, err)` returns.  The only
error exits of the source are the empty-input check and the `html.Parse` /
`html.Render` calls, which are total here (see `htmlParse`). -/
def Process (fuel : Nat) (env : Env) (aid purl raw : Str) : Option Result :=
  if raw = [] then none
  else
    let out := processDoc fuel env aid purl (htmlParse raw)
    some ⟨htmlRender out.doc, out.assets⟩

/-! ## Derived views used in claim statements -/

/-- The resolution `handleURL` applies to a (pre-trimmed) reference:
parse, then resolve against the page base when one exists. -/
def resolveOf (base : Option GoURL) (t : Str) : Option GoURL :=
  (urlParse t).map (baseResolve base)

/-- True when a (pre-trimmed) reference fails the parse or
http(s)-scheme gate of `handleURL`. -/
def schemeFiltered (base : Option GoURL) (t : Str) : Bool :=
  match resolveOf base t with
  | none => true
  | some u => ¬ (u.scheme = "http".toList ∨ u.scheme = "https".toList)

/-! ## Invariants of the threaded state

`canonInfo` is the value `downloadAndStore` stores for a URL on a successful
fetch (a function of the URL and the fixed network oracle alone);
`cacheCanon` says every cache binding is such a canonical value;
`stepOK` relates the state before and after any pipeline step: bindings are
never lost or changed, and no fetch of an already-cached URL is ever added. -/

def canonInfo (env : Env) (k : Str) : Option AssetInfo :=
  match env.net k with
  | some r => some ⟨dsStoredPath k r, dsContentType k r⟩
  | none => none

def cacheCanon (env : Env) (st : PState) : Prop :=
  ∀ kv ∈ st.cache, canonInfo env kv.1 = some kv.2

def cacheMono (st st' : PState) : Prop :=
  ∀ k v, cacheFind st.cache k = some v → cacheFind st'.cache k = some v

def fetchMono (st st' : PState) : Prop :=
  ∀ u, cacheFind st.cache u ≠ none → st'.fetches.count u = st.fetches.count u

def stepOK (st st' : PState) : Prop := cacheMono st st' ∧ fetchMono st st'

/-- A produced `Asset` record is consistent with the final cache and carries a
fully resolved absolute http(s) URL as its `Original`. -/
def assetOK (st : PState) (a : Asset) : Prop :=
  cacheFind st.cache a.original = some ⟨a.stored, a.type⟩ ∧
  ∃ u : GoURL, a.original = urlToString u ∧
    (u.scheme = "http".toList ∨ u.scheme = "https".toList)

/-- The contract a fetch handler (`downloadAndStore` at any fuel) satisfies. -/
def handlerOK (env : Env) (H : Handler) : Prop :=
  ∀ u st, cacheCanon env st →
    cacheCanon env (H u st).2 ∧ stepOK st (H u st).2 ∧
    ∀ sp ct ex, (H u st).1 = DSResult.ok sp ct ex →
      cacheFind (H u st).2.cache u = some ⟨sp, ct⟩ ∧ ∀ a ∈ ex, assetOK (H u st).2 a

/-- The contract of an attribute updater (`handleURL` / `handleSrcset`). -/
def updOK (env : Env) (f : Str → PState → ((Str × List Asset) × PState)) : Prop :=
  ∀ v st, cacheCanon env st →
    cacheCanon env (f v st).2 ∧ stepOK st (f v st).2 ∧
      ∀ a ∈ (f v st).1.2, assetOK (f v st).2 a

/-! ## Concrete test data for the claim witnesses and counterexamples -/

def aidT : Str := "a1".toList

def purlT : Str := "http://h/".toList

def uPng : Str := "http://h/a.png".toList

def uPngB : Str := "http://h/b.png".toList

def uMiss : Str := "http://h/miss.png".toList

def uJs : Str := "http://h/x.js".toList

def uSelf : Str := "http://h/self.css".toList

def uBig : Str := "http://h/big.png".toList

def pngResp : Response := ⟨200, "image/png".toList, "IMG".toList⟩

def pngRespB : Response := ⟨200, "image/png".toList, "IMGB".toList⟩

def resp404 : Response := ⟨404, [], []⟩

/-- A stylesheet whose single `@import` resolves back to its own URL. -/
def cssSelfBody : Str := "@import url(\"self.css\")".toList

def respSelf : Response := ⟨200, "text/css".toList, cssSelfBody⟩

/-- A response body one byte over the 20 MiB cap. -/
def respBig : Response := ⟨200, "image/png".toList, List.replicate (capBytes + 1) 'a'⟩

def envC1 : Env := ⟨fun u => if u = uPng then some pngResp else none, fun _ => true⟩

def envC2 : Env := ⟨fun u => if u = uSelf then some respSelf else none, fun _ => true⟩

def envC3 : Env := ⟨fun u => if u = uBig then some respBig else none, fun _ => true⟩

def envC5 : Env :=
  ⟨fun u => if u = uPng then some pngResp else if u = uPngB then some pngRespB else none,
   fun _ => true⟩

def envC6 : Env := ⟨fun u => if u = uMiss then some resp404 else none, fun _ => true⟩

/-- A network on which every fetch fails with a transport error. -/
def envDead : Env := ⟨fun _ => none, fun _ => true⟩

/-- The same image referenced twice, via `img src` and `script src`. -/
def docC1 : HNode :=
  .elem ("div".toList) []
    (.elem ("img".toList) [("src".toList, uPng)] .nil
      (.elem ("script".toList) [("src".toList, uPng)] .nil .nil))
    .nil

/-- An `img` whose `src` value starts with `data:` and carries a trailing
space. -/
def docC4 : HNode := .elem ("img".toList) [("src".toList, "data:x ".toList)] .nil .nil

/-- An `img` carrying two lazy-load attributes. -/
def docC5 : HNode :=
  .elem ("img".toList)
    [("data-src".toList, uPng), ("data-original".toList, uPngB)] .nil .nil

/-- An `img` whose lazy-load attribute points at a URL that answers 404. -/
def docC6 : HNode := .elem ("img".toList) [("data-src".toList, uMiss)] .nil .nil

/-- The same failing script URL referenced twice. -/
def docC9 : HNode :=
  .elem ("div".toList) []
    (.elem ("img".toList) [("src".toList, uJs)] .nil
      (.elem ("script".toList) [("src".toList, uJs)] .nil .nil))
    .nil

/-- A state whose dedup cache already holds the canonical entry for `uPng`. -/
def stC9w : PState := ⟨[(uPng, ⟨dsStoredPath uPng pngResp, dsContentType uPng pngResp⟩)], [], []⟩

/-! # Theorems -/

/-! ## Basic lemmas about the state invariants -/

theorem cacheFind_mem {l : List (Str × AssetInfo)} {k : Str} {v : AssetInfo}
    (h : cacheFind l k = some v) : (k, v) ∈ l := by
  induction l with
  | nil => simp [cacheFind] at h
  | cons kv rest ih =>
    obtain ⟨k0, v0⟩ := kv
    by_cases hk : k0 = k
    · subst hk
      simp [cacheFind] at h
      subst h
      exact List.mem_cons_self _ _
    · simp only [cacheFind, if_neg hk] at h
      exact List.mem_cons_of_mem _ (ih h)

theorem cacheCanon_find {env : Env} {st : PState} {k : Str} {v : AssetInfo}
    (h : cacheCanon env st) (hf : cacheFind st.cache k = some v) :
    canonInfo env k = some v :=
  h (k, v) (cacheFind_mem hf)

theorem stepOK_refl (st : PState) : stepOK st st :=
  ⟨fun _ _ h => h, fun _ _ => rfl⟩

theorem stepOK_trans {s1 s2 s3 : PState} (h1 : stepOK s1 s2) (h2 : stepOK s2 s3) :
    stepOK s1 s3 := by
  obtain ⟨m1, f1⟩ := h1
  obtain ⟨m2, f2⟩ := h2
  refine ⟨fun k v h => m2 k v (m1 k v h), fun u hu => ?_⟩
  obtain ⟨v, hv⟩ := Option.ne_none_iff_exists'.mp hu
  rw [f2 u (by rw [m1 u v hv]; exact Option.some_ne_none v), f1 u hu]

theorem assetOK_mono {st st' : PState} {a : Asset} (h : stepOK st st')
    (ha : assetOK st a) : assetOK st' a :=
  ⟨h.1 _ _ ha.1, ha.2⟩

/-- Extending the fetch log by a URL that is not in the cache is a valid step. -/
theorem stepOK_fetchLog {st : PState} {u : Str} (h : cacheFind st.cache u = none) :
    stepOK st { st with fetches := st.fetches ++ [u] } := by
  refine ⟨fun k v hf => hf, fun w hw => ?_⟩
  have hne : w ≠ u := by
    intro he
    subst he
    exact hw h
  simp [List.count_append, List.count_singleton, hne]

/-- State-threading form of `cacheCanon` after extending only the fetch log. -/
theorem cacheCanon_fetchLog {env : Env} {st : PState} {u : Str} (h : cacheCanon env st) :
    cacheCanon env { st with fetches := st.fetches ++ [u] } := h

/-! ## The CSS rewrite preserves the invariants (parametric in the handler) -/

theorem cssReplaceFn_ok {env : Env} {H : Handler} {aid : Str} {base : GoURL}
    {raw : Str} {st : PState} {res : CssRep} {st' : PState}
    (hH : handlerOK env H) (hc : cacheCanon env st)
    (heq : cssReplaceFn H aid base raw st = (res, st')) :
    cacheCanon env st' ∧ stepOK st st' ∧
    ∀ ap main ex, res = CssRep.done ap main ex →
      assetOK st' main ∧ ∀ a ∈ ex, assetOK st' a := by
  unfold cssReplaceFn at heq
  dsimp only at heq
  split at heq
  · injection heq with h1 h2
    subst h1; subst h2
    exact ⟨hc, stepOK_refl st, by intro ap main ex h; cases h⟩
  · split at heq
    · injection heq with h1 h2
      subst h1; subst h2
      exact ⟨hc, stepOK_refl st, by intro ap main ex h; cases h⟩
    · rename_i u0 hparse
      split at heq
      · injection heq with h1 h2
        subst h1; subst h2
        exact ⟨hc, stepOK_refl st, by intro ap main ex h; cases h⟩
      · rename_i hscheme
        split at heq
        · rename_i sp ct extra st2 hcall
          injection heq with h1 h2
          subst h1; subst h2
          have hprops := hH (urlToString (resolveReference base u0)) st hc
          rw [hcall] at hprops
          obtain ⟨hc2, hstep, hpost⟩ := hprops
          obtain ⟨hfound, hex⟩ := hpost sp ct extra rfl
          refine ⟨hc2, hstep, ?_⟩
          intro ap main ex h
          injection h with h1 h2 h3
          subst h1; subst h2; subst h3
          refine ⟨⟨hfound, ?_⟩, hex⟩
          exact ⟨_, rfl, Decidable.not_not.mp hscheme⟩
        · rename_i st2 hcall
          injection heq with h1 h2
          subst h1; subst h2
          have hprops := hH (urlToString (resolveReference base u0)) st hc
          rw [hcall] at hprops
          exact ⟨hprops.1, hprops.2.1, by intro ap main ex h; cases h⟩
        · rename_i st2 hcall
          injection heq with h1 h2
          subst h1; subst h2
          have hprops := hH (urlToString (resolveReference base u0)) st hc
          rw [hcall] at hprops
          exact ⟨hprops.1, hprops.2.1, by intro ap main ex h; cases h⟩

theorem runToks_ok {env : Env} {H : Handler} (hH : handlerOK env H)
    (render : Str → Str) (aid : Str) (base : GoURL) :
    ∀ (toks : List CTok) (st : PState) (res : Option (Str × List Asset)) (st' : PState),
      cacheCanon env st →
      runToks render H aid base toks st = (res, st') →
      cacheCanon env st' ∧ stepOK st st' ∧
        ∀ t as, res = some (t, as) → ∀ a ∈ as, assetOK st' a := by
  intro toks
  induction toks with
  | nil =>
    intro st res st' hc heq
    simp only [runToks] at heq
    injection heq with h1 h2
    subst h1; subst h2
    refine ⟨hc, stepOK_refl st, ?_⟩
    intro t as h a ha
    cases h
    cases ha
  | cons tok ts ih =>
    intro st res st' hc heq
    cases tok with
    | lit c =>
      simp only [runToks] at heq
      split at heq
      · rename_i st2 hrec
        injection heq with h1 h2
        subst h1; subst h2
        obtain ⟨hc2, hstep, _⟩ := ih st none st2 hc hrec
        refine ⟨hc2, hstep, ?_⟩
        intro t as h
        cases h
      · rename_i t0 as0 st2 hrec
        injection heq with h1 h2
        subst h1; subst h2
        obtain ⟨hc2, hstep, hassets⟩ := ih st (some (t0, as0)) st2 hc hrec
        refine ⟨hc2, hstep, ?_⟩
        intro t as h
        cases h
        exact hassets t0 as0 rfl
    | ref cap orig =>
      simp only [runToks] at heq
      split at heq
      · rename_i st2 hrep
        injection heq with h1 h2
        subst h1; subst h2
        obtain ⟨hc2, hstep, _⟩ := cssReplaceFn_ok hH hc hrep
        refine ⟨hc2, hstep, ?_⟩
        intro t as h
        cases h
      · rename_i st2 hrep
        split at heq
        · rename_i st3 hrec
          injection heq with h1 h2
          subst h1; subst h2
          obtain ⟨hc2, hstep2, _⟩ := cssReplaceFn_ok hH hc hrep
          obtain ⟨hc3, hstep3, _⟩ := ih st2 none st3 hc2 hrec
          refine ⟨hc3, stepOK_trans hstep2 hstep3, ?_⟩
          intro t as h
          cases h
        · rename_i t0 as0 st3 hrec
          injection heq with h1 h2
          subst h1; subst h2
          obtain ⟨hc2, hstep2, _⟩ := cssReplaceFn_ok hH hc hrep
          obtain ⟨hc3, hstep3, hassets⟩ := ih st2 (some (t0, as0)) st3 hc2 hrec
          refine ⟨hc3, stepOK_trans hstep2 hstep3, ?_⟩
          intro t as h
          cases h
          intro a ha
          exact hassets t0 as0 rfl a ha
      · rename_i ap main extra st2 hrep
        split at heq
        · rename_i st3 hrec
          injection heq with h1 h2
          subst h1; subst h2
          obtain ⟨hc2, hstep2, _⟩ := cssReplaceFn_ok hH hc hrep
          obtain ⟨hc3, hstep3, _⟩ := ih st2 none st3 hc2 hrec
          refine ⟨hc3, stepOK_trans hstep2 hstep3, ?_⟩
          intro t as h
          cases h
        · rename_i t0 as0 st3 hrec
          injection heq with h1 h2
          subst h1; subst h2
          obtain ⟨hc2, hstep2, hdone⟩ := cssReplaceFn_ok hH hc hrep
          obtain ⟨hmain, hextra⟩ := hdone ap main extra rfl
          obtain ⟨hc3, hstep3, hassets⟩ := ih st2 (some (t0, as0)) st3 hc2 hrec
          refine ⟨hc3, stepOK_trans hstep2 hstep3, ?_⟩
          intro t as h
          cases h
          intro a ha
          rw [List.cons_append, List.mem_cons] at ha
          rcases ha with ha | ha
          · subst ha
            exact assetOK_mono hstep3 hmain
          · rw [List.mem_append] at ha
            rcases ha with ha | ha
            · exact assetOK_mono hstep3 (hextra a ha)
            · exact hassets t0 as0 rfl a ha

theorem rewriteCSSWith_ok {env : Env} {H : Handler} {aid cssURL css : Str}
    {st : PState} {res : CSSResult} {st' : PState}
    (hH : handlerOK env H) (hc : cacheCanon env st)
    (heq : rewriteCSSWith H aid cssURL css st = (res, st')) :
    cacheCanon env st' ∧ stepOK st st' ∧
      ∀ t as, res = CSSResult.ok t as → ∀ a ∈ as, assetOK st' a := by
  unfold rewriteCSSWith at heq
  split at heq
  · injection heq with h1 h2
    subst h1; subst h2
    refine ⟨hc, stepOK_refl st, ?_⟩
    intro t as h
    cases h
  · rename_i base hparse
    split at heq
    · rename_i st2 hrun
      injection heq with h1 h2
      subst h1; subst h2
      obtain ⟨hc2, hstep2, _⟩ := runToks_ok hH urlRender aid base _ st none st2 hc hrun
      refine ⟨hc2, hstep2, ?_⟩
      intro t as h
      cases h
    · rename_i t1 a1 st2 hrun
      split at heq
      · rename_i st3 hrun2
        injection heq with h1 h2
        subst h1; subst h2
        obtain ⟨hc2, hstep2, _⟩ := runToks_ok hH urlRender aid base _ st (some (t1, a1)) st2 hc hrun
        obtain ⟨hc3, hstep3, _⟩ := runToks_ok hH importRender aid base _ st2 none st3 hc2 hrun2
        refine ⟨hc3, stepOK_trans hstep2 hstep3, ?_⟩
        intro t as h
        cases h
      · rename_i t2 a2 st3 hrun2
        injection heq with h1 h2
        subst h1; subst h2
        obtain ⟨hc2, hstep2, ha1⟩ := runToks_ok hH urlRender aid base _ st (some (t1, a1)) st2 hc hrun
        obtain ⟨hc3, hstep3, ha2⟩ := runToks_ok hH importRender aid base _ st2 (some (t2, a2)) st3 hc2 hrun2
        refine ⟨hc3, stepOK_trans hstep2 hstep3, ?_⟩
        intro t as h
        cases h
        intro a ha
        rw [List.mem_append] at ha
        rcases ha with ha | ha
        · exact assetOK_mono hstep3 (ha1 t1 a1 rfl a ha)
        · exact ha2 t2 a2 rfl a ha

theorem finishStore_ok {env : Env} {aid u : Str} {resp : Response} {body : Str}
    {ex : List Asset} {st : PState} {res : DSResult} {st' : PState}
    (hc : cacheCanon env st) (hnet : env.net u = some resp)
    (heq : finishStore env aid u resp body ex st = (res, st')) :
    cacheCanon env st' ∧ stepOK st st' ∧
      ∀ sp ct ex', res = DSResult.ok sp ct ex' →
        cacheFind st'.cache u = some ⟨sp, ct⟩ ∧ ex' = ex := by
  unfold finishStore at heq
  split at heq
  · injection heq with h1 h2
    subst h1; subst h2
    refine ⟨?_, ⟨?_, ?_⟩, ?_⟩
    · intro kv hkv
      rw [List.mem_cons] at hkv
      rcases hkv with hkv | hkv
      · subst hkv
        simp [canonInfo, hnet]
      · exact hc kv hkv
    · intro k v hf
      by_cases hk : u = k
      · subst hk
        have := cacheCanon_find hc hf
        rw [canonInfo, hnet] at this
        injection this with this
        subst this
        simp [cacheFind]
      · simpa [cacheFind, hk] using hf
    · intro w _
      rfl
    · intro sp ct ex' h
      injection h with h1 h2 h3
      subst h1; subst h2; subst h3
      simp [cacheFind]
  · injection heq with h1 h2
    subst h1; subst h2
    refine ⟨hc, stepOK_refl st, ?_⟩
    intro sp ct ex' h
    cases h

/-- Go `downloadAndStore` (at any fuel) satisfies the handler contract:
it keeps every cache binding canonical, never loses or changes a binding,
never refetches a cached URL, and on success the returned path and type are
the cached ones and all nested assets are consistent with the final cache. -/
theorem ds_ok : ∀ (fuel : Nat) (env : Env) (aid : Str),
    handlerOK env (downloadAndStore fuel env aid) := by
  intro fuel
  induction fuel with
  | zero =>
    intro env aid u st hc
    refine ⟨hc, stepOK_refl st, ?_⟩
    intro sp ct ex h
    cases h
  | succ fuel ih =>
    intro env aid u st hc
    rcases hds : downloadAndStore (fuel + 1) env aid u st with ⟨res, st'⟩
    unfold downloadAndStore at hds
    dsimp only at hds
    split at hds
    · rename_i info hfind
      injection hds with h1 h2
      subst h1; subst h2
      refine ⟨hc, stepOK_refl st, ?_⟩
      intro sp ct ex h
      injection h with h1 h2 h3
      subst h1; subst h2; subst h3
      refine ⟨by rw [hfind], ?_⟩
      intro a ha
      cases ha
    · rename_i hfind
      split at hds
      · injection hds with h1 h2
        subst h1; subst h2
        refine ⟨cacheCanon_fetchLog hc, stepOK_fetchLog hfind, ?_⟩
        intro sp ct ex h
        cases h
      · rename_i resp hnet
        split at hds
        · injection hds with h1 h2
          subst h1; subst h2
          refine ⟨cacheCanon_fetchLog hc, stepOK_fetchLog hfind, ?_⟩
          intro sp ct ex h
          cases h
        · rename_i hstatus
          split at hds
          · -- CSS branch
            split at hds
            · rename_i st2 hcss
              injection hds with h1 h2
              subst h1; subst h2
              obtain ⟨hc2, hstep2, _⟩ :=
                rewriteCSSWith_ok (ih env aid) (cacheCanon_fetchLog hc) hcss
              refine ⟨hc2, stepOK_trans (stepOK_fetchLog hfind) hstep2, ?_⟩
              intro sp ct ex h
              cases h
            · rename_i st2 hcss
              obtain ⟨hc2, hstep2, _⟩ :=
                rewriteCSSWith_ok (ih env aid) (cacheCanon_fetchLog hc) hcss
              obtain ⟨hc3, hstep3, hpost⟩ := finishStore_ok hc2 hnet hds
              refine ⟨hc3, stepOK_trans (stepOK_fetchLog hfind) (stepOK_trans hstep2 hstep3), ?_⟩
              intro sp ct ex h
              obtain ⟨hfound, hex⟩ := hpost sp ct ex h
              subst hex
              refine ⟨hfound, ?_⟩
              intro a ha
              cases ha
            · rename_i rewritten extras st2 hcss
              obtain ⟨hc2, hstep2, hassets⟩ :=
                rewriteCSSWith_ok (ih env aid) (cacheCanon_fetchLog hc) hcss
              obtain ⟨hc3, hstep3, hpost⟩ := finishStore_ok hc2 hnet hds
              refine ⟨hc3, stepOK_trans (stepOK_fetchLog hfind) (stepOK_trans hstep2 hstep3), ?_⟩
              intro sp ct ex h
              obtain ⟨hfound, hex⟩ := hpost sp ct ex h
              subst hex
              refine ⟨hfound, ?_⟩
              intro a ha
              exact assetOK_mono hstep3 (hassets rewritten _ rfl a ha)
          · -- non-CSS branch
            obtain ⟨hc3, hstep3, hpost⟩ := finishStore_ok (cacheCanon_fetchLog hc) hnet hds
            refine ⟨hc3, stepOK_trans (stepOK_fetchLog hfind) hstep3, ?_⟩
            intro sp ct ex h
            obtain ⟨hfound, hex⟩ := hpost sp ct ex h
            subst hex
            refine ⟨hfound, ?_⟩
            intro a ha
            cases ha

/-! ## The DOM-walk layers preserve the invariants -/

theorem handleURL_ok (fuel : Nat) (env : Env) (aid : Str) (base : Option GoURL) :
    updOK env (handleURL fuel env aid base) := by
  intro v st hc
  rcases hu : handleURL fuel env aid base v st with ⟨⟨upd, as⟩, st'⟩
  unfold handleURL at hu
  dsimp only at hu
  split at hu
  · injection hu with h1 h2
    injection h1 with h1a h1b
    subst h1b; subst h2
    exact ⟨hc, stepOK_refl st, by intro a ha; cases ha⟩
  · split at hu
    · injection hu with h1 h2
      injection h1 with h1a h1b
      subst h1b; subst h2
      exact ⟨hc, stepOK_refl st, by intro a ha; cases ha⟩
    · rename_i u0 hparse
      split at hu
      · injection hu with h1 h2
        injection h1 with h1a h1b
        subst h1b; subst h2
        exact ⟨hc, stepOK_refl st, by intro a ha; cases ha⟩
      · rename_i hscheme
        split at hu
        · rename_i sp ct extra st2 hcall
          injection hu with h1 h2
          injection h1 with h1a h1b
          subst h1b; subst h2
          have hprops := ds_ok fuel env aid (urlToString (baseResolve base u0)) st hc
          rw [hcall] at hprops
          obtain ⟨hc2, hstep2, hpost⟩ := hprops
          obtain ⟨hfound, hex⟩ := hpost sp ct extra rfl
          refine ⟨hc2, hstep2, ?_⟩
          intro a ha
          rw [List.mem_cons] at ha
          rcases ha with ha | ha
          · subst ha
            exact ⟨hfound, _, rfl, Decidable.not_not.mp hscheme⟩
          · exact hex a ha
        · rename_i st2 hcall
          injection hu with h1 h2
          injection h1 with h1a h1b
          subst h1b; subst h2
          have hprops := ds_ok fuel env aid (urlToString (baseResolve base u0)) st hc
          rw [hcall] at hprops
          exact ⟨hprops.1, hprops.2.1, by intro a ha; cases ha⟩
        · rename_i st2 hcall
          injection hu with h1 h2
          injection h1 with h1a h1b
          subst h1b; subst h2
          have hprops := ds_ok fuel env aid (urlToString (baseResolve base u0)) st hc
          rw [hcall] at hprops
          exact ⟨hprops.1, hprops.2.1, by intro a ha; cases ha⟩

theorem srcsetLoop_ok (fuel : Nat) (env : Env) (aid : Str) (base : Option GoURL) :
    ∀ (parts : List Str) (st : PState) (us : List Str) (as : List Asset) (st' : PState),
      cacheCanon env st →
      srcsetLoop fuel env aid base parts st = ((us, as), st') →
      cacheCanon env st' ∧ stepOK st st' ∧ ∀ a ∈ as, assetOK st' a := by
  intro parts
  induction parts with
  | nil =>
    intro st us as st' hc heq
    simp only [srcsetLoop] at heq
    injection heq with h1 h2
    injection h1 with h1a h1b
    subst h1b; subst h2
    exact ⟨hc, stepOK_refl st, by intro a ha; cases ha⟩
  | cons part0 parts ih =>
    intro st us as st' hc heq
    simp only [srcsetLoop] at heq
    split at heq
    · exact ih st us as st' hc heq
    · split at heq
      · exact ih st us as st' hc heq
      · rename_i urlPart descFields hfields
        rcases hu : handleURL fuel env aid base urlPart st with ⟨⟨upd0, fA⟩, st1⟩
        rw [hu] at heq
        dsimp only at heq
        rcases hrec : srcsetLoop fuel env aid base parts st1 with ⟨⟨us2, as2⟩, st2⟩
        rw [hrec] at heq
        dsimp only at heq
        injection heq with h1 h2
        injection h1 with h1a h1b
        subst h1b; subst h2
        have hup := handleURL_ok fuel env aid base urlPart st hc
        rw [hu] at hup
        obtain ⟨hc1, hstep1, has1⟩ := hup
        obtain ⟨hc2, hstep2, has2⟩ := ih st1 us2 as2 st2 hc1 hrec
        refine ⟨hc2, stepOK_trans hstep1 hstep2, ?_⟩
        intro a ha
        rw [List.mem_append] at ha
        rcases ha with ha | ha
        · exact assetOK_mono hstep2 (has1 a ha)
        · exact has2 a ha

theorem handleSrcset_ok (fuel : Nat) (env : Env) (aid : Str) (base : Option GoURL) :
    updOK env (handleSrcset fuel env aid base) := by
  intro v st hc
  rcases hs : handleSrcset fuel env aid base v st with ⟨⟨upd, as⟩, st'⟩
  unfold handleSrcset at hs
  rcases hloop : srcsetLoop fuel env aid base (List.splitOn ',' v) st with ⟨⟨us, as0⟩, st0⟩
  rw [hloop] at hs
  dsimp only at hs
  obtain ⟨hc0, hstep0, has0⟩ := srcsetLoop_ok fuel env aid base _ st us as0 st0 hc hloop
  split at hs
  · injection hs with h1 h2
    injection h1 with h1a h1b
    subst h1b; subst h2
    exact ⟨hc0, hstep0, by intro a ha; cases ha⟩
  · injection hs with h1 h2
    injection h1 with h1a h1b
    subst h1b; subst h2
    exact ⟨hc0, hstep0, has0⟩

theorem updFirstKeyWith_ok {env : Env} {f : Str → PState → ((Str × List Asset) × PState)}
    (hf : updOK env f) (key : Str) (ren : Bool) :
    ∀ (attrs : List (Str × Str)) (st : PState) (attrs' : List (Str × Str))
      (as : List Asset) (st' : PState),
      cacheCanon env st →
      updFirstKeyWith key f ren attrs st = ((attrs', as), st') →
      cacheCanon env st' ∧ stepOK st st' ∧ ∀ a ∈ as, assetOK st' a := by
  intro attrs
  induction attrs with
  | nil =>
    intro st attrs' as st' hc heq
    simp only [updFirstKeyWith] at heq
    injection heq with h1 h2
    injection h1 with h1a h1b
    subst h1b; subst h2
    exact ⟨hc, stepOK_refl st, by intro a ha; cases ha⟩
  | cons kv rest ih =>
    intro st attrs' as st' hc heq
    obtain ⟨k, v⟩ := kv
    simp only [updFirstKeyWith] at heq
    split at heq
    · rcases hu : f v st with ⟨⟨updated, as0⟩, st0⟩
      rw [hu] at heq
      dsimp only at heq
      have hup := hf v st hc
      rw [hu] at hup
      obtain ⟨hc0, hstep0, has0⟩ := hup
      split at heq
      · injection heq with h1 h2
        injection h1 with h1a h1b
        subst h1b; subst h2
        exact ⟨hc0, hstep0, has0⟩
      · injection heq with h1 h2
        injection h1 with h1a h1b
        subst h1b; subst h2
        exact ⟨hc0, hstep0, has0⟩
    · rcases hrec : updFirstKeyWith key f ren rest st with ⟨⟨rest', as0⟩, st0⟩
      rw [hrec] at heq
      dsimp only at heq
      injection heq with h1 h2
      injection h1 with h1a h1b
      subst h1b; subst h2
      exact ih st rest' as0 st0 hc hrec

theorem doLazy_ok {env : Env} {f : Str → PState → ((Str × List Asset) × PState)}
    (hf : updOK env f) :
    ∀ (keys : List Str) (attrs : List (Str × Str)) (st : PState)
      (attrs' : List (Str × Str)) (as : List Asset) (st' : PState),
      cacheCanon env st →
      doLazy f keys attrs st = ((attrs', as), st') →
      cacheCanon env st' ∧ stepOK st st' ∧ ∀ a ∈ as, assetOK st' a := by
  intro keys
  induction keys with
  | nil =>
    intro attrs st attrs' as st' hc heq
    simp only [doLazy] at heq
    injection heq with h1 h2
    injection h1 with h1a h1b
    subst h1b; subst h2
    exact ⟨hc, stepOK_refl st, by intro a ha; cases ha⟩
  | cons key keys ih =>
    intro attrs st attrs' as st' hc heq
    simp only [doLazy] at heq
    rcases h1 : updFirstKeyWith key f true attrs st with ⟨⟨attrs1, a1⟩, st1⟩
    rw [h1] at heq
    dsimp only at heq
    rcases h2 : doLazy f keys attrs1 st1 with ⟨⟨attrs2, a2⟩, st2⟩
    rw [h2] at heq
    dsimp only at heq
    injection heq with hh1 hh2
    injection hh1 with hh1a hh1b
    subst hh1b; subst hh2
    obtain ⟨hc1, hstep1, has1⟩ := updFirstKeyWith_ok hf key true attrs st attrs1 a1 st1 hc h1
    obtain ⟨hc2, hstep2, has2⟩ := ih attrs1 st1 attrs2 a2 st2 hc1 h2
    refine ⟨hc2, stepOK_trans hstep1 hstep2, ?_⟩
    intro a ha
    rw [List.mem_append] at ha
    rcases ha with ha | ha
    · exact assetOK_mono hstep2 (has1 a ha)
    · exact has2 a ha

theorem processElem_ok (fuel : Nat) (env : Env) (aid : Str) (base : Option GoURL)
    (tag : Str) :
    ∀ (attrs : List (Str × Str)) (st : PState) (attrs' : List (Str × Str))
      (as : List Asset) (st' : PState),
      cacheCanon env st →
      processElem fuel env aid base tag attrs st = ((attrs', as), st') →
      cacheCanon env st' ∧ stepOK st st' ∧ ∀ a ∈ as, assetOK st' a := by
  intro attrs st attrs' as st' hc heq
  unfold processElem at heq
  dsimp only at heq
  split at heq
  · rcases h1 : updFirstKeyWith ("src".toList) (handleURL fuel env aid base) false attrs st
      with ⟨⟨attrs1, a1⟩, st1⟩
    rw [h1] at heq
    dsimp only at heq
    obtain ⟨hc1, hstep1, has1⟩ :=
      updFirstKeyWith_ok (handleURL_ok fuel env aid base) _ false attrs st attrs1 a1 st1 hc h1
    split at heq
    · rcases h2 : doLazy (handleURL fuel env aid base) lazyKeys attrs1 st1
        with ⟨⟨attrs2, a2⟩, st2⟩
      rw [h2] at heq
      dsimp only at heq
      rcases h3 : updFirstKeyWith ("srcset".toList) (handleSrcset fuel env aid base) false attrs2 st2
        with ⟨⟨attrs3, a3⟩, st3⟩
      rw [h3] at heq
      dsimp only at heq
      injection heq with hh1 hh2
      injection hh1 with hh1a hh1b
      subst hh1b; subst hh2
      obtain ⟨hc2, hstep2, has2⟩ := doLazy_ok (handleURL_ok fuel env aid base) lazyKeys attrs1 st1 attrs2 a2 st2 hc1 h2
      obtain ⟨hc3, hstep3, has3⟩ :=
        updFirstKeyWith_ok (handleSrcset_ok fuel env aid base) _ false attrs2 st2 attrs3 a3 st3 hc2 h3
      refine ⟨hc3, stepOK_trans hstep1 (stepOK_trans hstep2 hstep3), ?_⟩
      intro a ha
      rw [List.mem_append] at ha
      rcases ha with ha | ha
      · rw [List.mem_append] at ha
        rcases ha with ha | ha
        · exact assetOK_mono (stepOK_trans hstep2 hstep3) (has1 a ha)
        · exact assetOK_mono hstep3 (has2 a ha)
      · exact has3 a ha
    · injection heq with hh1 hh2
      injection hh1 with hh1a hh1b
      subst hh1b; subst hh2
      exact ⟨hc1, hstep1, has1⟩
  · split at heq
    · split at heq
      · exact updFirstKeyWith_ok (handleURL_ok fuel env aid base) _ false attrs st attrs' as st' hc heq
      · injection heq with hh1 hh2
        injection hh1 with hh1a hh1b
        subst hh1b; subst hh2
        exact ⟨hc, stepOK_refl st, by intro a ha; cases ha⟩
    · injection heq with hh1 hh2
      injection hh1 with hh1a hh1b
      subst hh1b; subst hh2
      exact ⟨hc, stepOK_refl st, by intro a ha; cases ha⟩

theorem walkNode_ok (fuel : Nat) (env : Env) (aid : Str) (base : Option GoURL) :
    ∀ (n : HNode) (st : PState) (n' : HNode) (as : List Asset) (st' : PState),
      cacheCanon env st →
      walkNode fuel env aid base n st = ((n', as), st') →
      cacheCanon env st' ∧ stepOK st st' ∧ ∀ a ∈ as, assetOK st' a := by
  intro n
  induction n with
  | nil =>
    intro st n' as st' hc heq
    simp only [walkNode] at heq
    injection heq with h1 h2
    injection h1 with h1a h1b
    subst h1b; subst h2
    exact ⟨hc, stepOK_refl st, by intro a ha; cases ha⟩
  | text s sib ihs =>
    intro st n' as st' hc heq
    simp only [walkNode] at heq
    rcases h1 : walkNode fuel env aid base sib st with ⟨⟨sib', as1⟩, st1⟩
    rw [h1] at heq
    dsimp only at heq
    injection heq with hh1 hh2
    injection hh1 with hh1a hh1b
    subst hh1b; subst hh2
    exact ihs st sib' as1 st1 hc h1
  | elem tag attrs child sib ihc ihs =>
    intro st n' as st' hc heq
    simp only [walkNode] at heq
    rcases h1 : processElem fuel env aid base tag attrs st with ⟨⟨attrs1, a1⟩, st1⟩
    rw [h1] at heq
    dsimp only at heq
    rcases h2 : walkNode fuel env aid base child st1 with ⟨⟨child', a2⟩, st2⟩
    rw [h2] at heq
    dsimp only at heq
    rcases h3 : walkNode fuel env aid base sib st2 with ⟨⟨sib', a3⟩, st3⟩
    rw [h3] at heq
    dsimp only at heq
    injection heq with hh1 hh2
    injection hh1 with hh1a hh1b
    subst hh1b; subst hh2
    obtain ⟨hc1, hstep1, has1⟩ := processElem_ok fuel env aid base tag attrs st attrs1 a1 st1 hc h1
    obtain ⟨hc2, hstep2, has2⟩ := ihc st1 child' a2 st2 hc1 h2
    obtain ⟨hc3, hstep3, has3⟩ := ihs st2 sib' a3 st3 hc2 h3
    refine ⟨hc3, stepOK_trans hstep1 (stepOK_trans hstep2 hstep3), ?_⟩
    intro a ha
    rw [List.mem_append] at ha
    rcases ha with ha | ha
    · rw [List.mem_append] at ha
      rcases ha with ha | ha
      · exact assetOK_mono (stepOK_trans hstep2 hstep3) (has1 a ha)
      · exact assetOK_mono hstep3 (has2 a ha)
    · exact has3 a ha

theorem cacheCanon_pstate0 (env : Env) : cacheCanon env pstate0 := by
  intro kv hkv
  cases hkv

theorem processDoc_assets_ok (fuel : Nat) (env : Env) (aid purl : Str) (doc : HNode) :
    ∀ a ∈ (processDoc fuel env aid purl doc).assets,
      assetOK (processDoc fuel env aid purl doc).state a := by
  intro a ha
  unfold processDoc at ha ⊢
  dsimp only at ha ⊢
  rcases hw : walkNode fuel env aid (urlParse purl) doc pstate0 with ⟨⟨doc', as⟩, st⟩
  rw [hw] at ha
  obtain ⟨_, _, has⟩ :=
    walkNode_ok fuel env aid (urlParse purl) doc pstate0 doc' as st (cacheCanon_pstate0 env) hw
  exact has a ha

/-- C1 (amended): within one `Process` call every Asset record for a given
`Original` URL carries the same `Stored` path and `Type` — all rewritten
references to one URL agree — even though (as the counterexample shows) a
URL referenced K times yields K such records rather than one. -/
theorem c1_dedup_consistent : ∀ (fuel : Nat) (env : Env) (aid purl : Str) (doc : HNode)
    (a1 a2 : Asset),
    a1 ∈ (processDoc fuel env aid purl doc).assets →
    a2 ∈ (processDoc fuel env aid purl doc).assets →
    a1.original = a2.original →
    a1.stored = a2.stored ∧ a1.type = a2.type := by
  intro fuel env aid purl doc a1 a2 h1 h2 horig
  obtain ⟨hf1, _⟩ := processDoc_assets_ok fuel env aid purl doc a1 h1
  obtain ⟨hf2, _⟩ := processDoc_assets_ok fuel env aid purl doc a2 h2
  rw [horig, hf2] at hf1
  injection hf1 with hf1
  exact ⟨(congrArg AssetInfo.stored hf1).symm, (congrArg AssetInfo.contentType hf1).symm⟩

/-- C9 (amended): once a URL is in the dedup cache, the rest of the walk
performs no further fetch attempt for it (the count of `Client.Do` calls for
that URL does not grow).  Together with the counterexample this settles the
claim: only *successful* fetches are cached, so a failed URL is re-attempted
once per reference, while a cached URL is never refetched. -/
theorem c9_no_refetch_when_cached : ∀ (fuel : Nat) (env : Env) (aid : Str)
    (base : Option GoURL) (n : HNode) (st : PState) (u : Str) (info : AssetInfo),
    cacheCanon env st →
    cacheFind st.cache u = some info →
    ((walkNode fuel env aid base n st).2).fetches.count u = st.fetches.count u := by
  intro fuel env aid base n st u info hc hfind
  rcases hw : walkNode fuel env aid base n st with ⟨⟨n', as⟩, st'⟩
  obtain ⟨_, ⟨_, hfetch⟩, _⟩ := walkNode_ok fuel env aid base n st n' as st' hc hw
  exact hfetch u (by rw [hfind]; exact Option.some_ne_none info)

/-- C10: every Asset emitted by a `Process` call has as `Original` the
`String()` form of a resolved URL whose scheme passed the `http`/`https`
gate — never the raw relative or protocol-relative attribute text. -/
theorem c10_originals_absolute : ∀ (fuel : Nat) (env : Env) (aid purl : Str) (doc : HNode)
    (a : Asset), a ∈ (processDoc fuel env aid purl doc).assets →
    ∃ u : GoURL, a.original = urlToString u ∧
      (u.scheme = "http".toList ∨ u.scheme = "https".toList) := by
  intro fuel env aid purl doc a ha
  exact (processDoc_assets_ok fuel env aid purl doc a ha).2

/-- C7: `Process` returns an error (modelled `none`) exactly on empty input;
the only other whole-capture failure mode in the source is an `html.Parse` /
`html.Render` error, and those functions are total over in-memory buffers
(see `htmlParse`), so empty input and unparseable input are the only failure
modes, and `Process(ctx, id, url, "")` in particular fails with no `Result`. -/
theorem c7_fail_iff_empty : ∀ (fuel : Nat) (env : Env) (aid purl raw : Str),
    Process fuel env aid purl raw = none ↔ raw = [] := by
  intro fuel env aid purl raw
  constructor
  · intro h
    by_contra hne
    simp [Process, hne] at h
  · intro h
    subst h
    simp [Process]

/-- C1 counterexample: a document referencing `http://h/a.png` twice (via
`img src` and `script src`) yields **two** Asset records with that
`Original` in one `Process` call — the cache hit suppresses the second fetch
but `handleURL` still emits a record per reference, refuting "at most one
Asset record per distinct URL" and "no duplicate Asset record on cache hit". -/
theorem c1_counterexample :
    ((processDoc 3 envC1 aidT purlT docC1).assets.countP
      (fun a => a.original == uPng)) = 2 ∧
    (processDoc 3 envC1 aidT purlT docC1).state.fetches = [uPng] := by
  decide

/-- C4 counterexample: the `data:`-prefixed attribute value `"data:x "`
(with a trailing space) is written back *trimmed* to `"data:x"`, so the
attribute is not byte-for-byte unchanged (no Asset is emitted, though). -/
theorem c4_counterexample :
    (processDoc 1 envDead aidT purlT docC4).doc =
      HNode.elem ("img".toList) [("src".toList, "data:x".toList)] HNode.nil HNode.nil ∧
    (processDoc 1 envDead aidT purlT docC4).doc ≠ docC4 ∧
    (processDoc 1 envDead aidT purlT docC4).assets = [] := by
  decide

/-- C5 counterexample: on `<img data-src=... data-original=...>` **both**
lazy attributes are fetched and both are renamed to `src` (the `break` in the
source only leaves the inner attribute scan), refuting "only the first
present lazy attribute is processed". -/
theorem c5_counterexample :
    (processDoc 3 envC5 aidT purlT docC5).doc =
      HNode.elem ("img".toList)
        [("src".toList, apiPathOf aidT (dsStoredPath uPng pngResp)),
         ("src".toList, apiPathOf aidT (dsStoredPath uPngB pngRespB))] HNode.nil HNode.nil := by
  decide

/-- C6 counterexample: when the fetch of a `data-src` URL answers 404 the
attribute is still *renamed* to `src` (keeping the remote URL as value), so
the triggering attribute is not left unchanged; no Asset is emitted and the
capture succeeds. -/
theorem c6_counterexample :
    (processDoc 2 envC6 aidT purlT docC6).doc =
      HNode.elem ("img".toList) [("src".toList, uMiss)] HNode.nil HNode.nil ∧
    (processDoc 2 envC6 aidT purlT docC6).assets = [] := by
  decide

/-- C9 counterexample: a URL referenced twice whose fetch fails (transport
error) is attempted **twice** in one `Process` call — failures are not
recorded in the dedup cache — refuting "at most one fetch attempt per
distinct URL regardless of success or failure". -/
theorem c9_counterexample :
    (processDoc 2 envDead aidT purlT docC9).state.fetches = [uJs, uJs] := by
  decide

/-! ## One-step unfolding lemmas for `downloadAndStore` -/

theorem downloadAndStore_cache_hit (fuel : Nat) (env : Env) (aid u : Str) (st : PState)
    (info : AssetInfo) (hfind : cacheFind st.cache u = some info) :
    downloadAndStore (fuel + 1) env aid u st =
      (DSResult.ok info.stored info.contentType [], st) := by
  unfold downloadAndStore
  rw [hfind]

theorem downloadAndStore_fetch_fail (fuel : Nat) (env : Env) (aid u : Str) (st : PState)
    (r : Response) (hfind : cacheFind st.cache u = none) (hnet : env.net u = some r)
    (hstatus : r.status < 200 ∨ 300 ≤ r.status) :
    downloadAndStore (fuel + 1) env aid u st =
      (DSResult.fail, { st with fetches := st.fetches ++ [u] }) := by
  unfold downloadAndStore
  rw [hfind]
  dsimp only
  rw [hnet]
  dsimp only
  rw [if_pos hstatus]

theorem downloadAndStore_fetch_ok (fuel : Nat) (env : Env) (aid u : Str) (st : PState)
    (r : Response) (hfind : cacheFind st.cache u = none) (hnet : env.net u = some r)
    (h200 : 200 ≤ r.status) (h300 : r.status < 300)
    (hcss : dsIsCSS u r = false)
    (hstore : env.storeOK (dsObjectPath aid u r) = true) :
    downloadAndStore (fuel + 1) env aid u st =
      (DSResult.ok (dsStoredPath u r) (dsContentType u r) [],
       ⟨(u, ⟨dsStoredPath u r, dsContentType u r⟩) :: st.cache,
        st.puts ++ [(dsObjectPath aid u r, r.body.take capBytes, dsContentType u r)],
        st.fetches ++ [u]⟩) := by
  unfold downloadAndStore
  rw [hfind]
  dsimp only
  rw [hnet]
  dsimp only
  rw [if_neg (by omega : ¬ (r.status < 200 ∨ 300 ≤ r.status))]
  split
  · rename_i h
    rw [hcss] at h
    cases h
  · unfold finishStore
    rw [if_pos hstore]

/-- C3 (amended): the response body is read through the 20 MiB cap of
`io.LimitReader`, so an oversized body does **not** make the fetch fail: the fetch
succeeds, the silently truncated first 20 MiB are stored at the asset's
object path, the URL is cached and an Asset entry results; when the body
exceeds the cap the stored bytes consequently differ from the full response
body.  (The capture as a whole indeed never fails for this reason — but the
resource is neither skipped nor kept out of storage, contrary to the claim.) -/
theorem c3_truncated_store (fuel : Nat) (env : Env) (aid u : Str) (st : PState)
    (r : Response) (hfind : cacheFind st.cache u = none) (hnet : env.net u = some r)
    (h200 : 200 ≤ r.status) (h300 : r.status < 300)
    (hcss : dsIsCSS u r = false)
    (hstore : env.storeOK (dsObjectPath aid u r) = true) :
    downloadAndStore (fuel + 1) env aid u st =
      (DSResult.ok (dsStoredPath u r) (dsContentType u r) [],
       ⟨(u, ⟨dsStoredPath u r, dsContentType u r⟩) :: st.cache,
        st.puts ++ [(dsObjectPath aid u r, r.body.take capBytes, dsContentType u r)],
        st.fetches ++ [u]⟩) ∧
    (capBytes < r.body.length → r.body.take capBytes ≠ r.body) := by
  refine ⟨downloadAndStore_fetch_ok fuel env aid u st r hfind hnet h200 h300 hcss hstore, ?_⟩
  intro hlen hEq
  have hL := congrArg List.length hEq
  rw [List.length_take] at hL
  rw [Nat.min_eq_left (Nat.le_of_lt hlen)] at hL
  omega

/-- C3 counterexample: a body of 20 MiB + 1 bytes is not treated as a fetch
failure — the fetch succeeds and the stored object holds exactly the first
20 MiB, which differ from the response body. -/
theorem c3_counterexample :
    (downloadAndStore 1 envC3 aidT uBig pstate0).1 =
      DSResult.ok (dsStoredPath uBig respBig) (dsContentType uBig respBig) [] ∧
    (downloadAndStore 1 envC3 aidT uBig pstate0).2.puts =
      [(dsObjectPath aidT uBig respBig, List.replicate capBytes 'a', dsContentType uBig respBig)] ∧
    List.replicate capBytes 'a' ≠ respBig.body := by
  have h := downloadAndStore_fetch_ok 0 envC3 aidT uBig pstate0 respBig rfl rfl
    (by decide) (by decide) (by decide) rfl
  refine ⟨by rw [h], ?_, ?_⟩
  · rw [h]
    dsimp only
    have hb : respBig.body.take capBytes = List.replicate capBytes 'a' := by
      show (List.replicate (capBytes + 1) 'a').take capBytes = _
      rw [List.take_replicate, Nat.min_eq_left (Nat.le_succ capBytes)]
    rw [hb]
    rfl
  · intro hEq
    have h2 : (List.replicate capBytes 'a').length = respBig.body.length :=
      congrArg List.length hEq
    rw [List.length_replicate] at h2
    have h3 : respBig.body.length = capBytes + 1 := by
      show (List.replicate (capBytes + 1) 'a').length = capBytes + 1
      rw [List.length_replicate]
    omega

/-- C3 witness: the truncated-store theorem applied to a small concrete
fetch, with every hypothesis discharged by evaluation. -/
theorem c3_witness :
    (cacheFind pstate0.cache uPng = none) ∧
    (envC1.net uPng = some pngResp) ∧
    (200 ≤ pngResp.status ∧ pngResp.status < 300) ∧
    (dsIsCSS uPng pngResp = false) ∧
    (envC1.storeOK (dsObjectPath aidT uPng pngResp) = true) ∧
    downloadAndStore 1 envC1 aidT uPng pstate0 =
      (DSResult.ok (dsStoredPath uPng pngResp) (dsContentType uPng pngResp) [],
       ⟨[(uPng, ⟨dsStoredPath uPng pngResp, dsContentType uPng pngResp⟩)],
        [(dsObjectPath aidT uPng pngResp, pngResp.body.take capBytes, dsContentType uPng pngResp)],
        [uPng]⟩) :=
  ⟨rfl, rfl, ⟨by decide, by decide⟩, by decide, rfl,
   (c3_truncated_store 0 envC1 aidT uPng pstate0 pngResp rfl rfl (by decide) (by decide)
      (by decide) rfl).1⟩

/-- C6 (amended): when the GET of the resolved URL answers a non-2xx status the
capture continues: `handleURL` returns the *trimmed* original reference with
no Asset (so the value is byte-for-byte unchanged exactly when unpadded, and
— per the counterexample — a lazy-load attribute is still renamed to `src`),
and the only state change is the logged fetch attempt; the walk carries on
and `Process` as a whole still succeeds (`c7_fail_iff_empty`). -/
theorem c6_fetch_failure_tolerated (fuel : Nat) (env : Env) (aid : Str)
    (base : Option GoURL) (raw : Str) (st : PState) (u : GoURL) (r : Response)
    (hres : resolveOf base (trimSpace raw) = some u)
    (hscheme : u.scheme = "http".toList ∨ u.scheme = "https".toList)
    (hne : trimSpace raw ≠ [])
    (hdata : ("data:".toList).isPrefixOf (trimSpace raw) = false)
    (hjs : ("javascript:".toList).isPrefixOf (trimSpace raw) = false)
    (hfind : cacheFind st.cache (urlToString u) = none)
    (hnet : env.net (urlToString u) = some r)
    (hstatus : r.status < 200 ∨ 300 ≤ r.status) :
    handleURL (fuel + 1) env aid base raw st =
      ((trimSpace raw, []), { st with fetches := st.fetches ++ [urlToString u] }) := by
  obtain ⟨u0, hparse, hbase⟩ := Option.map_eq_some'.mp hres
  unfold handleURL
  dsimp only
  rw [if_neg (by
    intro hcon
    rcases hcon with hcon | hcon | hcon
    · exact hne hcon
    · rw [hdata] at hcon; exact Bool.false_ne_true hcon
    · rw [hjs] at hcon; exact Bool.false_ne_true hcon)]
  rw [hparse]
  dsimp only
  rw [hbase]
  rw [if_neg (not_not_intro hscheme)]
  rw [downloadAndStore_fetch_fail fuel env aid (urlToString u) st r hfind hnet hstatus]

/-- C6 witness: the fetch-failure theorem applied to a concrete 404. -/
theorem c6_witness :
    (resolveOf (urlParse purlT) (trimSpace uMiss) =
      some ⟨"http".toList, [], "h".toList, "/miss.png".toList, [], []⟩) ∧
    (trimSpace uMiss ≠ []) ∧
    (cacheFind pstate0.cache
      (urlToString ⟨"http".toList, [], "h".toList, "/miss.png".toList, [], []⟩) = none) ∧
    (envC6.net (urlToString ⟨"http".toList, [], "h".toList, "/miss.png".toList, [], []⟩) =
      some resp404) ∧
    (resp404.status < 200 ∨ 300 ≤ resp404.status) ∧
    handleURL 1 envC6 aidT (urlParse purlT) uMiss pstate0 =
      ((trimSpace uMiss, []),
       { pstate0 with fetches := pstate0.fetches ++
          [urlToString ⟨"http".toList, [], "h".toList, "/miss.png".toList, [], []⟩] }) :=
  ⟨by decide, by decide, rfl, by decide, by decide,
   c6_fetch_failure_tolerated 0 envC6 aidT (urlParse purlT) uMiss pstate0
     ⟨"http".toList, [], "h".toList, "/miss.png".toList, [], []⟩ resp404
     (by decide) (Or.inl rfl) (by decide) (by decide) (by decide) rfl (by decide) (by decide)⟩

/-- C4 (amended): a reference that is `data:`- or `javascript:`-prefixed
after whitespace trimming, or whose resolved URL has a non-http(s) scheme
(or fails to parse), is never fetched and yields no Asset, and the pipeline
state is untouched; the attribute receives the *trimmed* original value back
— byte-for-byte unchanged exactly when the value carries no surrounding
whitespace (the counterexample shows the trimmed write-back). -/
theorem c4_scheme_filtering (fuel : Nat) (env : Env) (aid : Str) (base : Option GoURL)
    (raw : Str) (st : PState)
    (h : ("data:".toList).isPrefixOf (trimSpace raw) = true ∨
         ("javascript:".toList).isPrefixOf (trimSpace raw) = true ∨
         schemeFiltered base (trimSpace raw) = true) :
    handleURL fuel env aid base raw st = ((trimSpace raw, []), st) := by
  unfold handleURL
  dsimp only
  split
  · rfl
  · rename_i hguard
    have hsf : schemeFiltered base (trimSpace raw) = true := by
      rcases h with h | h | h
      · exact absurd (Or.inr (Or.inl h)) hguard
      · exact absurd (Or.inr (Or.inr h)) hguard
      · exact h
    unfold schemeFiltered resolveOf at hsf
    split
    · rfl
    · rename_i u0 hparse
      rw [hparse] at hsf
      simp only [Option.map_some'] at hsf
      rw [if_pos (of_decide_eq_true hsf)]

/-- C4 witness: the scheme-filtering theorem applied to a concrete
`mailto:` reference. -/
theorem c4_witness :
    (schemeFiltered (urlParse purlT) (trimSpace ("mailto:x@y".toList)) = true) ∧
    handleURL 1 envDead aidT (urlParse purlT) ("mailto:x@y".toList) pstate0 =
      ((trimSpace ("mailto:x@y".toList), []), pstate0) :=
  ⟨by decide,
   c4_scheme_filtering 1 envDead aidT (urlParse purlT) ("mailto:x@y".toList) pstate0
     (Or.inr (Or.inr (by decide)))⟩

/-! ## Path-shape lemmas for the storage contract -/

theorem sha1hex_ne_nil (s : Str) : sha1hex s ≠ [] := by
  unfold sha1hex
  dsimp only
  rcases hch : sha1Chunks ((sha1Pad (s.map Char.toNat)).length / 64) (sha1Pad (s.map Char.toNat))
      (1732584193, 4023233417, 2562383102, 271733878, 3285377520) with ⟨h0, h1, h2, h3, h4⟩
  simp [word8Hex]

theorem goPathJoin_pair (a b : Str) (ha : a ≠ []) (hb : b ≠ []) :
    goPathJoin [a, b] = a ++ "/".toList ++ b := by
  unfold goPathJoin
  rw [List.filter_cons_of_pos (by simpa using ha), List.filter_cons_of_pos (by simpa using hb),
      List.filter_nil]
  simp [List.intercalate, List.intersperse, List.append_assoc]

theorem goPathJoin_triple (a b c : Str) (ha : a ≠ []) (hb : b ≠ []) (hc : c ≠ []) :
    goPathJoin [a, b, c] = a ++ "/".toList ++ b ++ "/".toList ++ c := by
  unfold goPathJoin
  rw [List.filter_cons_of_pos (by simpa using ha), List.filter_cons_of_pos (by simpa using hb),
      List.filter_cons_of_pos (by simpa using hc), List.filter_nil]
  simp [List.intercalate, List.intersperse, List.append_assoc]

theorem dsName_ne_nil (u : Str) (r : Response) : dsName u r ≠ [] := by
  unfold dsName
  intro hcon
  exact sha1hex_ne_nil u (List.append_eq_nil.mp hcon).1

theorem dsStoredPath_shape (u : Str) (r : Response) :
    dsStoredPath u r = "assets/".toList ++ sha1hex u ++ dsExt u r := by
  unfold dsStoredPath
  rw [goPathJoin_pair _ _ (by decide) (dsName_ne_nil u r)]
  unfold dsName
  simp [List.append_assoc]

theorem dsObjectPath_shape (aid u : Str) (r : Response) :
    dsObjectPath aid u r =
      archivePrefixOf aid ++ "/assets/".toList ++ sha1hex u ++ dsExt u r := by
  unfold dsObjectPath
  rw [goPathJoin_triple _ _ _ (by simp [archivePrefixOf]) (by decide) (dsName_ne_nil u r)]
  unfold dsName
  simp [List.append_assoc]

set_option maxHeartbeats 4000000 in
/-- C8: for a successfully stored resource the returned `Stored` path is
`assets/{sha1-hex(originalURL)}{ext}`, the rewritten reference is
`/api/assets/{archiveID}/{storedPath}`, the object is put at
`archives/{archiveID}/assets/{sha1-hex(originalURL)}{ext}`, and — via the
dedup cache entry written by the call — any later `downloadAndStore` of the
same URL in the same invocation returns the same stored path. -/
theorem c8_path_contract (fuel : Nat) (env : Env) (aid : Str) (base : Option GoURL)
    (raw : Str) (st : PState) (u : GoURL) (r : Response)
    (hres : resolveOf base (trimSpace raw) = some u)
    (hscheme : u.scheme = "http".toList ∨ u.scheme = "https".toList)
    (hne : trimSpace raw ≠ [])
    (hdata : ("data:".toList).isPrefixOf (trimSpace raw) = false)
    (hjs : ("javascript:".toList).isPrefixOf (trimSpace raw) = false)
    (hfind : cacheFind st.cache (urlToString u) = none)
    (hnet : env.net (urlToString u) = some r)
    (h200 : 200 ≤ r.status) (h300 : r.status < 300)
    (hcss : dsIsCSS (urlToString u) r = false)
    (hstore : env.storeOK (dsObjectPath aid (urlToString u) r) = true) :
    handleURL (fuel + 1) env aid base raw st =
      ((apiPathOf aid (dsStoredPath (urlToString u) r),
        [⟨urlToString u, dsStoredPath (urlToString u) r, dsContentType (urlToString u) r⟩]),
       ⟨(urlToString u, ⟨dsStoredPath (urlToString u) r, dsContentType (urlToString u) r⟩) :: st.cache,
        st.puts ++ [(dsObjectPath aid (urlToString u) r, r.body.take capBytes,
                     dsContentType (urlToString u) r)],
        st.fetches ++ [urlToString u]⟩) ∧
    dsStoredPath (urlToString u) r =
      "assets/".toList ++ sha1hex (urlToString u) ++ dsExt (urlToString u) r ∧
    apiPathOf aid (dsStoredPath (urlToString u) r) =
      "/api/assets/".toList ++ aid ++ "/".toList ++ dsStoredPath (urlToString u) r ∧
    dsObjectPath aid (urlToString u) r =
      archivePrefixOf aid ++ "/assets/".toList ++ sha1hex (urlToString u) ++
        dsExt (urlToString u) r ∧
    archivePrefixOf aid = "archives/".toList ++ aid ∧
    (∀ (m : Nat) (st2 : PState),
      cacheFind st2.cache (urlToString u) =
        some ⟨dsStoredPath (urlToString u) r, dsContentType (urlToString u) r⟩ →
      downloadAndStore (m + 1) env aid (urlToString u) st2 =
        (DSResult.ok (dsStoredPath (urlToString u) r) (dsContentType (urlToString u) r) [],
         st2)) := by
  obtain ⟨u0, hparse, hbase⟩ := Option.map_eq_some'.mp hres
  refine ⟨?_, dsStoredPath_shape _ _, rfl, dsObjectPath_shape _ _ _, rfl, ?_⟩
  · unfold handleURL
    dsimp only
    rw [if_neg (by
      intro hcon
      rcases hcon with hcon | hcon | hcon
      · exact hne hcon
      · rw [hdata] at hcon; exact Bool.false_ne_true hcon
      · rw [hjs] at hcon; exact Bool.false_ne_true hcon)]
    rw [hparse]
    dsimp only
    rw [hbase]
    rw [if_neg (not_not_intro hscheme)]
    rw [downloadAndStore_fetch_ok fuel env aid (urlToString u) st r hfind hnet h200 h300
      hcss hstore]
  · intro m st2 hfind2
    exact downloadAndStore_cache_hit m env aid (urlToString u) st2
      ⟨dsStoredPath (urlToString u) r, dsContentType (urlToString u) r⟩ hfind2

set_option maxHeartbeats 4000000 in
/-- C8 witness: the path contract applied to a concrete fetch, every
hypothesis discharged by evaluation. -/
theorem c8_witness :
    (resolveOf (urlParse purlT) (trimSpace uPng) =
      some ⟨"http".toList, [], "h".toList, "/a.png".toList, [], []⟩) ∧
    (envC1.net (urlToString ⟨"http".toList, [], "h".toList, "/a.png".toList, [], []⟩) =
      some pngResp) ∧
    (dsIsCSS (urlToString ⟨"http".toList, [], "h".toList, "/a.png".toList, [], []⟩) pngResp
      = false) ∧
    dsStoredPath (urlToString ⟨"http".toList, [], "h".toList, "/a.png".toList, [], []⟩) pngResp =
      "assets/".toList ++
        sha1hex (urlToString ⟨"http".toList, [], "h".toList, "/a.png".toList, [], []⟩) ++
        dsExt (urlToString ⟨"http".toList, [], "h".toList, "/a.png".toList, [], []⟩) pngResp :=
  ⟨by decide, by decide, by decide,
   (c8_path_contract 0 envC1 aidT (urlParse purlT) uPng pstate0
      ⟨"http".toList, [], "h".toList, "/a.png".toList, [], []⟩ pngResp
      (by decide) (Or.inl rfl) (by decide) (by decide) (by decide) rfl (by decide)
      (by decide) (by decide) (by decide) rfl).2.1⟩

/-- C5 (amended): the `break` in the lazy-attribute loop only exits the inner
attribute scan, so **every** lazy attribute present (`data-src`,
`data-original`, `data-lazy-src`, `data-lazy`, in that order, first
occurrence of each key) is processed, not just the first present one; and
whenever `handleURL` returns a non-empty string — which includes the failure
case, where it returns the trimmed original value — the attribute is renamed
to `src` with that string.  Shown here for an `img` carrying `data-src` and
`data-original`: both are processed sequentially and both renamed. -/
theorem c5_lazy_attrs (fuel : Nat) (env : Env) (aid : Str) (base : Option GoURL)
    (v1 v2 u1 u2 : Str) (a1 a2 : List Asset) (st st1 st2 : PState)
    (h1 : handleURL fuel env aid base v1 st = ((u1, a1), st1)) (hu1 : u1 ≠ [])
    (h2 : handleURL fuel env aid base v2 st1 = ((u2, a2), st2)) (hu2 : u2 ≠ []) :
    processElem fuel env aid base ("img".toList)
      [("data-src".toList, v1), ("data-original".toList, v2)] st =
      (([("src".toList, u1), ("src".toList, u2)], a1 ++ a2), st2) := by
  have e1 : updFirstKeyWith ("data-src".toList) (handleURL fuel env aid base) true
      [("data-src".toList, v1), ("data-original".toList, v2)] st =
      (([("src".toList, u1), ("data-original".toList, v2)], a1), st1) := by
    unfold updFirstKeyWith
    rw [if_pos rfl, h1]
    dsimp only
    rw [if_neg hu1]
    rfl
  have e2 : updFirstKeyWith ("data-original".toList) (handleURL fuel env aid base) true
      [("src".toList, u1), ("data-original".toList, v2)] st1 =
      (([("src".toList, u1), ("src".toList, u2)], a2), st2) := by
    unfold updFirstKeyWith
    rw [if_neg (by decide : ¬ ("src".toList = "data-original".toList))]
    unfold updFirstKeyWith
    rw [if_pos rfl, h2]
    dsimp only
    rw [if_neg hu2]
    rfl
  unfold processElem
  dsimp only
  rw [if_pos (show toLowerStr ("img".toList) ∈ srcTags by decide)]
  rw [show updFirstKeyWith ("src".toList) (handleURL fuel env aid base) false
      [("data-src".toList, v1), ("data-original".toList, v2)] st =
      (([("data-src".toList, v1), ("data-original".toList, v2)], []), st) from rfl]
  dsimp only
  rw [if_pos (show toLowerStr ("img".toList) = "img".toList by decide)]
  simp only [lazyKeys, doLazy]
  rw [e1]
  dsimp only
  rw [e2]
  dsimp only
  rw [show updFirstKeyWith ("data-lazy-src".toList) (handleURL fuel env aid base) true
      [("src".toList, u1), ("src".toList, u2)] st2 =
      (([("src".toList, u1), ("src".toList, u2)], []), st2) from rfl]
  dsimp only
  rw [show updFirstKeyWith ("data-lazy".toList) (handleURL fuel env aid base) true
      [("src".toList, u1), ("src".toList, u2)] st2 =
      (([("src".toList, u1), ("src".toList, u2)], []), st2) from rfl]
  dsimp only
  rw [show updFirstKeyWith ("srcset".toList) (handleSrcset fuel env aid base) false
      [("src".toList, u1), ("src".toList, u2)] st2 =
      (([("src".toList, u1), ("src".toList, u2)], []), st2) from rfl]
  dsimp only
  simp [List.append_nil]

/-- C5 witness: both lazy attributes of a concrete `img` go through
`handleURL` (here both fetches fail on a dead network, which still renames
both attributes to `src` with the original values). -/
theorem c5_witness :
    (handleURL 1 envDead aidT (urlParse purlT) uPng pstate0 =
      ((uPng, []), ⟨[], [], [uPng]⟩)) ∧
    (uPng ≠ []) ∧
    (handleURL 1 envDead aidT (urlParse purlT) uPngB ⟨[], [], [uPng]⟩ =
      ((uPngB, []), ⟨[], [], [uPng, uPngB]⟩)) ∧
    processElem 1 envDead aidT (urlParse purlT) ("img".toList)
      [("data-src".toList, uPng), ("data-original".toList, uPngB)] pstate0 =
      (([("src".toList, uPng), ("src".toList, uPngB)], []), ⟨[], [], [uPng, uPngB]⟩) :=
  ⟨by decide, by decide, by decide,
   c5_lazy_attrs 1 envDead aidT (urlParse purlT) uPng uPngB uPng uPngB [] [] pstate0
     ⟨[], [], [uPng]⟩ ⟨[], [], [uPng, uPngB]⟩ (by decide) (by decide) (by decide) (by decide)⟩

/-- Helper for C2: starting from any state in which the self-importing
stylesheet's URL is not yet cached, `downloadAndStore` exhausts **any**
recursion budget: the cache entry is only written after `rewriteCSS`
finishes, and `rewriteCSS` re-enters `downloadAndStore` on the same URL, so
the Go original recurses (and refetches) forever. -/
theorem c2_aux : ∀ (fuel : Nat) (st : PState),
    cacheFind st.cache uSelf = none →
    (downloadAndStore fuel envC2 aidT uSelf st).1 = DSResult.fuelOut := by
  intro fuel
  induction fuel with
  | zero =>
    intro st h
    rfl
  | succ fuel ih =>
    intro st h
    unfold downloadAndStore
    rw [h]
    dsimp only
    rw [show envC2.net uSelf = some respSelf from rfl]
    dsimp only
    rw [if_neg (by decide : ¬ (respSelf.status < 200 ∨ 300 ≤ respSelf.status))]
    rw [if_pos (by decide : dsIsCSS uSelf respSelf = true)]
    rw [show respSelf.body.take capBytes = cssSelfBody from rfl]
    rcases hds : downloadAndStore fuel envC2 aidT uSelf
        { st with fetches := st.fetches ++ [uSelf] } with ⟨res, st'⟩
    have hres : res = DSResult.fuelOut := by
      have h2 := ih { st with fetches := st.fetches ++ [uSelf] } h
      rw [hds] at h2
      exact h2
    subst hres
    have hrep : cssReplaceFn (downloadAndStore fuel envC2 aidT) aidT
        ⟨"http".toList, [], "h".toList, "/self.css".toList, [], []⟩
        ("\"self.css\"".toList) { st with fetches := st.fetches ++ [uSelf] } =
        (CssRep.fuelOut, st') := by
      unfold cssReplaceFn
      dsimp only
      rw [if_neg (by decide)]
      rw [show urlParse (trimQuotes (trimSpace ("\"self.css\"".toList))) =
        some ⟨[], [], [], "self.css".toList, [], []⟩ from rfl]
      dsimp only
      rw [if_neg (by decide)]
      rw [show urlToString (resolveReference
        ⟨"http".toList, [], "h".toList, "/self.css".toList, [], []⟩
        ⟨[], [], [], "self.css".toList, [], []⟩) = uSelf from rfl]
      rw [hds]
    have hcssres : rewriteCSSWith (downloadAndStore fuel envC2 aidT) aidT uSelf cssSelfBody
        { st with fetches := st.fetches ++ [uSelf] } = (CSSResult.fuelOut, st') := by
      unfold rewriteCSSWith
      rw [show urlParse uSelf =
        some ⟨"http".toList, [], "h".toList, "/self.css".toList, [], []⟩ from rfl]
      dsimp only
      rw [show urlToks cssSelfBody =
        [CTok.lit '@', CTok.lit 'i', CTok.lit 'm', CTok.lit 'p', CTok.lit 'o', CTok.lit 'r',
         CTok.lit 't', CTok.lit ' ',
         CTok.ref ("\"self.css\"".toList) ("url(\"self.css\")".toList)] from rfl]
      simp only [runToks]
      rw [hrep]
    rw [hcssres]

/-- C2 (code bug): on a stylesheet whose `@import` resolves to its own URL,
`downloadAndStore` exhausts **every** recursion budget `fuel` — the model
marker `fuelOut` at all depths means the unbounded Go original never
returns.  The spec statements that an `@import`ed stylesheet is stored as
opaque bytes without further rewriting and that processing terminates on
cyclic imports are the intended behavior; the code instead re-runs
`rewriteCSS` on every fetched CSS body and writes the dedup-cache entry only
after the rewrite completes, so a self-referential `@import` refetches and
recurses without bound. -/
theorem c2_self_import_diverges : ∀ fuel : Nat,
    (downloadAndStore fuel envC2 aidT uSelf pstate0).1 = DSResult.fuelOut :=
  fun fuel => c2_aux fuel pstate0 rfl

/-- C1 witness: the consistency theorem applied to a concrete run whose
asset list contains the duplicated record. -/
theorem c1_witness :
    ((⟨uPng, dsStoredPath uPng pngResp, dsContentType uPng pngResp⟩ : Asset) ∈
      (processDoc 3 envC1 aidT purlT docC1).assets) ∧
    ((⟨uPng, dsStoredPath uPng pngResp, dsContentType uPng pngResp⟩ : Asset).stored =
        (⟨uPng, dsStoredPath uPng pngResp, dsContentType uPng pngResp⟩ : Asset).stored ∧
      (⟨uPng, dsStoredPath uPng pngResp, dsContentType uPng pngResp⟩ : Asset).type =
        (⟨uPng, dsStoredPath uPng pngResp, dsContentType uPng pngResp⟩ : Asset).type) :=
  ⟨by decide,
   c1_dedup_consistent 3 envC1 aidT purlT docC1
     ⟨uPng, dsStoredPath uPng pngResp, dsContentType uPng pngResp⟩
     ⟨uPng, dsStoredPath uPng pngResp, dsContentType uPng pngResp⟩
     (by decide) (by decide) rfl⟩

/-- C9 witness: with the canonical cache entry for `uPng` already present,
walking a document that references `uPng` twice adds no fetch of it. -/
theorem c9_witness :
    cacheCanon envC1 stC9w ∧
    (cacheFind stC9w.cache uPng =
      some ⟨dsStoredPath uPng pngResp, dsContentType uPng pngResp⟩) ∧
    ((walkNode 3 envC1 aidT (urlParse purlT) docC1 stC9w).2).fetches.count uPng =
      stC9w.fetches.count uPng :=
  ⟨by unfold cacheCanon; decide, rfl,
   c9_no_refetch_when_cached 3 envC1 aidT (urlParse purlT) docC1 stC9w uPng
     ⟨dsStoredPath uPng pngResp, dsContentType uPng pngResp⟩
     (by unfold cacheCanon; decide) rfl⟩

/-- C10 witness: the absolute-original invariant applied to a concrete
emitted asset. -/
theorem c10_witness :
    ((⟨uPng, dsStoredPath uPng pngResp, dsContentType uPng pngResp⟩ : Asset) ∈
      (processDoc 3 envC1 aidT purlT docC1).assets) ∧
    (∃ u : GoURL,
      (⟨uPng, dsStoredPath uPng pngResp, dsContentType uPng pngResp⟩ : Asset).original =
        urlToString u ∧
      (u.scheme = "http".toList ∨ u.scheme = "https".toList)) :=
  ⟨by decide,
   c10_originals_absolute 3 envC1 aidT purlT docC1
     ⟨uPng, dsStoredPath uPng pngResp, dsContentType uPng pngResp⟩ (by decide)⟩
